import Mathlib

/-!
Verification of the fitness-tracker progress engine.

The definitions below are a shallow embedding of the repository's
progress-aggregation code:

* `Exercise.markCompleted` / `Exercise.markIncomplete`,
  `Exercise.updateDailyProgress`, `Exercise.checkAndUpdateWorkoutCompletion`,
  `Exercise.getWorkoutProgress`, `Exercise.getDailyProgress`
  (models/Exercise.js, cascade revision);
* `Workout.markCompleted` / `Workout.markIncomplete` (models/Workout.js);
* the legacy `Exercise.getDailyProgress` revision (plain-tree
  models/Exercise.js) that keys counts to the workout's creation date;
* the `GET /streak` handler and the `GET /calendar/:year/:month` handler
  (routes/progress.js, 90-day revision).

The SQLite store is modelled as lists of rows; timestamps are naturals
(seconds), and `DATE(ts)` is `ts / 86400`.  Row fields not read by any of
the modelled operations (names, categories, notes, credentials) are
elided.  Errors are an explicit `Err` type mirroring the error classes of
middleware/errorHandler.js.
-/

/-- A row of the `exercises` table (fields read by the modelled code). -/
structure ExerciseRow where
  id : Nat
  workout_id : Nat
  completed : Bool
  completed_at : Option Nat
deriving DecidableEq

/-- A row of the `workouts` table (fields read by the modelled code).
`day` is the recurring weekday slot 1..7 (`day1`..`day7`). -/
structure WorkoutRow where
  id : Nat
  user_id : Nat
  day : Nat
  completed : Bool
  completed_at : Option Nat
  created_at : Nat
deriving DecidableEq

/-- A row of the `progress` table, keyed by `(user_id, date)`. -/
structure ProgressRow where
  user_id : Nat
  date : Nat
  total_exercises : Nat
  completed_exercises : Nat
deriving DecidableEq

/-- The persistent store: the four tables of database.js.
`users` holds the user ids only (no modelled operation reads any other
user column). -/
structure Store where
  users : List Nat
  workouts : List WorkoutRow
  exercises : List ExerciseRow
  progress : List ProgressRow
deriving DecidableEq

/-- Error kinds thrown by the modelled code (errorHandler.js classes;
`databaseErr` is the `DatabaseError` wrapper used by the mark-complete
path for failures of the two follow-up steps). -/
inductive Err where
  | notFound
  | invalidArg
  | integrityFault
  | databaseErr
deriving DecidableEq

/-- `DATE(ts)`: the calendar date (as a day number) of a timestamp. -/
def dayOf (t : Nat) : Nat := t / 86400

/-- Membership test for the SQL join `exercises e JOIN workouts w ON
e.workout_id = w.id WHERE w.user_id = u`. -/
def userExercisePred (st : Store) (u : Nat) (e : ExerciseRow) : Bool :=
  st.workouts.any (fun w => w.id == e.workout_id && w.user_id == u)

/-- `COUNT(e.id)` over the user's exercises (updateDailyProgress query). -/
def userTotal (st : Store) (u : Nat) : Nat :=
  st.exercises.countP (userExercisePred st u)

/-- `SUM(CASE WHEN e.completed = 1 AND DATE(e.completed_at) = d ...)`
over the user's exercises: the code's "completed today" count. -/
def userCompletedOn (st : Store) (u d : Nat) : Nat :=
  st.exercises.countP (fun e =>
    userExercisePred st u e && e.completed &&
      (match e.completed_at with
       | some t => dayOf t == d
       | none => false))

/-- The spec's wording of the daily completed count: exercises whose
`completed_at` falls on the date (no mention of the `completed` flag). -/
def userTimestampOn (st : Store) (u d : Nat) : Nat :=
  st.exercises.countP (fun e =>
    userExercisePred st u e &&
      (match e.completed_at with
       | some t => dayOf t == d
       | none => false))

/-- `COUNT(*)` over one workout's exercises. -/
def workoutTotal (st : Store) (wid : Nat) : Nat :=
  st.exercises.countP (fun e => e.workout_id == wid)

/-- `SUM(CASE WHEN completed = 1 ...)` over one workout's exercises. -/
def workoutCompletedCount (st : Store) (wid : Nat) : Nat :=
  st.exercises.countP (fun e => e.workout_id == wid && e.completed)

/-- `INSERT ... ON CONFLICT(user_id, date) DO UPDATE`: replace the row
with the key in place, or append a fresh row. -/
def upsertProgress (u d tot comp : Nat) : List ProgressRow → List ProgressRow
  | [] => [⟨u, d, tot, comp⟩]
  | r :: rest =>
    if r.user_id == u && r.date == d then ⟨u, d, tot, comp⟩ :: rest
    else r :: upsertProgress u d tot comp rest

/-- Tail of `Exercise.updateDailyProgress`: the integrity guard
(`completed > total` rejects before any write) followed by the upsert. -/
def writeDailyProgress (u d tot comp : Nat) (ps : List ProgressRow) :
    Except Err (List ProgressRow) :=
  if tot < comp then .error .integrityFault
  else .ok (upsertProgress u d tot comp ps)

/-- `Exercise.updateDailyProgress(workoutId)`: resolve the workout to its
user, recount today's totals across all of the user's exercises, and
upsert the `(user, today)` progress row. -/
def updateDailyProgress (now wid : Nat) (st : Store) : Except Err Store :=
  if wid == 0 then .error .invalidArg
  else
    match st.workouts.find? (fun w => w.id == wid) with
    | none => .error .notFound
    | some w =>
      let today := dayOf now
      let tot := userTotal st w.user_id
      let comp := userCompletedOn st w.user_id today
      match writeDailyProgress w.user_id today tot comp st.progress with
      | .error e => .error e
      | .ok ps => .ok { st with progress := ps }

/-- `Workout.markCompleted(id)`: validate, set `completed = TRUE,
completed_at = CURRENT_TIMESTAMP`, `changes = 0` means not found. -/
def workoutMarkCompleted (now wid : Nat) (st : Store) : Except Err Store :=
  if wid == 0 then .error .invalidArg
  else if st.workouts.countP (fun w => w.id == wid) == 0 then .error .notFound
  else
    let ws := st.workouts.map (fun w =>
      if w.id == wid then { w with completed := true, completed_at := some now }
      else w)
    .ok { st with workouts := ws }

/-- `Workout.markIncomplete(id)`: validate, set `completed = FALSE,
completed_at = NULL`, `changes = 0` means not found. -/
def workoutMarkIncomplete (wid : Nat) (st : Store) : Except Err Store :=
  if wid == 0 then .error .invalidArg
  else if st.workouts.countP (fun w => w.id == wid) == 0 then .error .notFound
  else
    let ws := st.workouts.map (fun w =>
      if w.id == wid then { w with completed := false, completed_at := none }
      else w)
    .ok { st with workouts := ws }

/-- `Exercise.checkAndUpdateWorkoutCompletion(workoutId)`: recount the
workout's exercises, integrity-guard, require the workout to exist, then
mark the workout completed exactly when `total > 0 && completed == total`. -/
def checkAndUpdateWorkoutCompletion (now wid : Nat) (st : Store) :
    Except Err Store :=
  if wid == 0 then .error .invalidArg
  else
    let tot := workoutTotal st wid
    let comp := workoutCompletedCount st wid
    if tot < comp then .error .integrityFault
    else
      match st.workouts.find? (fun w => w.id == wid) with
      | none => .error .notFound
      | some _ =>
        if 0 < tot && comp == tot then workoutMarkCompleted now wid st
        else workoutMarkIncomplete wid st

/-- The three persisted effects of a completion toggle, in execution
order: the exercise UPDATE, the daily-progress upsert, the workout
completion cascade. -/
inductive Step where
  | exUpdate
  | dailyRefresh
  | cascade
deriving DecidableEq

/-- Outcome of `Exercise.markCompleted` / `markIncomplete`: the store
after all writes that actually ran, the returned exercise (or error), and
the ordered trace of the steps that completed. -/
structure MarkResult where
  store : Store
  result : Except Err ExerciseRow
  trace : List Step

/-- The UPDATE of `Exercise.markCompleted`. -/
def updExComplete (now id : Nat) (e : ExerciseRow) : ExerciseRow :=
  if e.id == id then { e with completed := true, completed_at := some now }
  else e

/-- The UPDATE of `Exercise.markIncomplete`. -/
def updExIncomplete (id : Nat) (e : ExerciseRow) : ExerciseRow :=
  if e.id == id then { e with completed := false, completed_at := none }
  else e

/-- `Exercise.markCompleted(id)`: validate, UPDATE the row
(`changes = 0` means not found), re-fetch it, then run
`updateDailyProgress` and `checkAndUpdateWorkoutCompletion` for its
workout, wrapping their failures in a `DatabaseError`. -/
def exMarkCompleted (now id : Nat) (st : Store) : MarkResult :=
  if id == 0 then ⟨st, .error .invalidArg, []⟩
  else if st.exercises.countP (fun e => e.id == id) == 0 then
    ⟨st, .error .notFound, []⟩
  else
    let st1 := { st with exercises := st.exercises.map (updExComplete now id) }
    match st1.exercises.find? (fun e => e.id == id) with
    | none => ⟨st1, .error .notFound, [.exUpdate]⟩
    | some ex =>
      match updateDailyProgress now ex.workout_id st1 with
      | .error _ => ⟨st1, .error .databaseErr, [.exUpdate]⟩
      | .ok st2 =>
        match checkAndUpdateWorkoutCompletion now ex.workout_id st2 with
        | .error _ => ⟨st2, .error .databaseErr, [.exUpdate, .dailyRefresh]⟩
        | .ok st3 => ⟨st3, .ok ex, [.exUpdate, .dailyRefresh, .cascade]⟩

/-- `Exercise.markIncomplete(id)`: same shape as `markCompleted` with the
inverse UPDATE. -/
def exMarkIncomplete (now id : Nat) (st : Store) : MarkResult :=
  if id == 0 then ⟨st, .error .invalidArg, []⟩
  else if st.exercises.countP (fun e => e.id == id) == 0 then
    ⟨st, .error .notFound, []⟩
  else
    let st1 := { st with exercises := st.exercises.map (updExIncomplete id) }
    match st1.exercises.find? (fun e => e.id == id) with
    | none => ⟨st1, .error .notFound, [.exUpdate]⟩
    | some ex =>
      match updateDailyProgress now ex.workout_id st1 with
      | .error _ => ⟨st1, .error .databaseErr, [.exUpdate]⟩
      | .ok st2 =>
        match checkAndUpdateWorkoutCompletion now ex.workout_id st2 with
        | .error _ => ⟨st2, .error .databaseErr, [.exUpdate, .dailyRefresh]⟩
        | .ok st3 => ⟨st3, .ok ex, [.exUpdate, .dailyRefresh, .cascade]⟩

/-- The `completed` flag of workout `wid` as stored. -/
def getWorkoutFlag (st : Store) (wid : Nat) : Option Bool :=
  (st.workouts.find? (fun w => w.id == wid)).map (·.completed)

/-- The stored counts of the `(user, date)` progress row, if present. -/
def lookupProgress (st : Store) (u d : Nat) : Option (Nat × Nat) :=
  (st.progress.find? (fun r => r.user_id == u && r.date == d)).map
    (fun r => (r.total_exercises, r.completed_exercises))

/-- JS `Math.round(c / t * 100)` on exact rationals: round half up. -/
def roundPct (comp tot : Nat) : Nat := (200 * comp + tot) / (2 * tot)

/-- The `{total, completed, percentage}` shape returned by the progress
queries. -/
structure ProgressResult where
  total : Nat
  completed : Nat
  percentage : Nat
deriving DecidableEq

/-- `Exercise.getWorkoutProgress(workoutId)`: plain counts over the
`exercises` table (no workout-existence check), `percentage` guarded by
`total > 0`. -/
def getWorkoutProgress (st : Store) (wid : Nat) : ProgressResult :=
  let tot := workoutTotal st wid
  let comp := workoutCompletedCount st wid
  ⟨tot, comp, if 0 < tot then roundPct comp tot else 0⟩

/-- `new Date(dateStr).getDay()` for a date given as a day number:
weekday with Sunday = 0 (day 0 of the timestamp epoch is a Thursday). -/
def jsGetDay (d : Nat) : Nat := (d + 4) % 7

/-- The weekday slot key for a date: `day7` for Sunday, else `day{n}`. -/
def dayKeyOf (d : Nat) : Nat :=
  if jsGetDay d == 0 then 7 else jsGetDay d

/-- `Exercise.getDailyProgress(userId, date)` (cascade revision): prefer
the stored progress row; otherwise count completions whose
`completed_at` falls on the date, with the total taken from the
workout bound to the date's weekday slot. -/
def getDailyProgress (st : Store) (u d : Nat) : ProgressResult :=
  match st.progress.find? (fun r => r.user_id == u && r.date == d) with
  | some r =>
    ⟨r.total_exercises, r.completed_exercises,
      if 0 < r.total_exercises then
        roundPct r.completed_exercises r.total_exercises
      else 0⟩
  | none =>
    let onDate := userCompletedOn st u d
    let slotTot := st.exercises.countP (fun e =>
      st.workouts.any (fun w =>
        w.id == e.workout_id && w.user_id == u && w.day == dayKeyOf d))
    let comp := if 0 < onDate then onDate else 0
    ⟨slotTot, comp, if 0 < slotTot then roundPct comp slotTot else 0⟩

/-- `Exercise.getDailyProgress(userId, date)` (plain-tree legacy
revision): counts keyed to `DATE(w.created_at) = date`, the completed
count ignoring when the exercise was actually completed. -/
def getDailyProgressLegacy (st : Store) (u d : Nat) : ProgressResult :=
  let tot := st.exercises.countP (fun e =>
    st.workouts.any (fun w =>
      w.id == e.workout_id && w.user_id == u && dayOf w.created_at == d))
  let comp := st.exercises.countP (fun e =>
    (st.workouts.any (fun w =>
      w.id == e.workout_id && w.user_id == u && dayOf w.created_at == d))
      && e.completed)
  ⟨tot, comp, if 0 < tot then roundPct comp tot else 0⟩

/-- Loop state of the `GET /streak` handler. -/
structure StreakState where
  currentStreak : Nat
  longestStreak : Nat
  tempStreak : Nat
  lastWorkoutDate : Option Nat
  streakBroken : Bool
  finished : Bool
deriving DecidableEq

/-- Initial streak state. -/
def initStreak : StreakState := ⟨0, 0, 0, none, false, false⟩

/-- One iteration of the handler's backward walk.  `j` is the day's
distance from today (`j = 0` is today, `j = 1` yesterday); `finished`
models the loop's `break`. -/
def streakStep (j : Nat) (s : StreakState) (hasWorkout : Bool) :
    StreakState :=
  if s.finished then s
  else if hasWorkout then
    if s.streakBroken then { s with tempStreak := s.tempStreak + 1 }
    else
      { s with
        currentStreak := s.currentStreak + 1
        tempStreak := s.tempStreak + 1
        lastWorkoutDate :=
          match s.lastWorkoutDate with
          | none => some j
          | some d => some d }
  else
    if s.currentStreak == 0 && (j == 0 || (j == 1 && !s.streakBroken)) then
      { s with streakBroken := if j == 1 then true else s.streakBroken }
    else
      { s with
        longestStreak :=
          if s.longestStreak < s.tempStreak then s.tempStreak
          else s.longestStreak
        tempStreak := 0
        finished := decide (0 < s.currentStreak) }

/-- The backward walk over the per-day series, most recent day first. -/
def streakWalk : Nat → StreakState → List Bool → StreakState
  | _, s, [] => s
  | j, s, b :: rest => streakWalk (j + 1) (streakStep j s b) rest

/-- The handler's response (the date is the day's distance from today). -/
structure StreakOut where
  currentStreak : Nat
  longestStreak : Nat
  lastWorkoutDate : Option Nat
deriving DecidableEq

/-- `GET /streak`: walk the per-day `hasWorkout` series (oldest first,
today last) backward from today, then fold the current and pending runs
into the longest streak. -/
def computeStreaks (history : List Bool) : StreakOut :=
  let s := streakWalk 0 initStreak history.reverse
  let l1 := if s.longestStreak < s.currentStreak then s.currentStreak
            else s.longestStreak
  let l2 := if l1 < s.tempStreak then s.tempStreak else l1
  ⟨s.currentStreak, l2, s.lastWorkoutDate⟩

/-- A calendar date. -/
structure Date where
  y : Nat
  m : Nat
  d : Nat
deriving DecidableEq

/-- Gregorian leap-year rule. -/
def isLeap (y : Nat) : Bool := (y % 4 == 0 && y % 100 != 0) || y % 400 == 0

/-- Days in a month (1..12). -/
def daysInMonth (y m : Nat) : Nat :=
  if m == 2 then (if isLeap y then 29 else 28)
  else if m == 4 || m == 6 || m == 9 || m == 11 then 30
  else 31

/-- Days in the months of year `y` strictly before month `m`. -/
def daysBeforeMonth (y m : Nat) : Nat :=
  (List.range (m - 1)).foldl (fun acc k => acc + daysInMonth y (k + 1)) 0

/-- Days in the proleptic-Gregorian years `0, 1, ..., y - 1`
(year 0 counts as a leap year). -/
def daysBeforeYear (y : Nat) : Nat :=
  365 * y + (y + 3) / 4 - (y + 99) / 100 + (y + 399) / 400

/-- Absolute day number of a date (day 0 is 0000-01-01). -/
def toAbs (dt : Date) : Nat :=
  daysBeforeYear dt.y + daysBeforeMonth dt.y dt.m + (dt.d - 1)

/-- Weekday of an absolute day number, Sunday = 0 (0001-01-01, absolute
day 366, is a Monday). -/
def dowAbs (n : Nat) : Nat := (n + 6) % 7

/-- `day.add(1, 'day')` on calendar dates. -/
def nextDate (dt : Date) : Date :=
  if dt.d < daysInMonth dt.y dt.m then ⟨dt.y, dt.m, dt.d + 1⟩
  else if dt.m < 12 then ⟨dt.y, dt.m + 1, 1⟩
  else ⟨dt.y + 1, 1, 1⟩

/-- `day.subtract(1, 'day')` on calendar dates. -/
def prevDate (dt : Date) : Date :=
  if 1 < dt.d then ⟨dt.y, dt.m, dt.d - 1⟩
  else if 1 < dt.m then ⟨dt.y, dt.m - 1, daysInMonth dt.y (dt.m - 1)⟩
  else ⟨dt.y - 1, 12, 31⟩

/-- A structurally well-formed calendar date. -/
def ValidDate (dt : Date) : Prop :=
  1 ≤ dt.m ∧ dt.m ≤ 12 ∧ 1 ≤ dt.d ∧ dt.d ≤ daysInMonth dt.y dt.m

/-- `moment(start).startOf('week')` (Sunday-aligned): step back by the
first-of-month's weekday. -/
def calendarStart (y m : Nat) : Date :=
  prevDate^[dowAbs (toAbs ⟨y, m, 1⟩)] ⟨y, m, 1⟩

/-- Number of cells of the month grid: from the Sunday starting the
first week through the Saturday ending the last week. -/
def calendarLength (y m : Nat) : Nat :=
  dowAbs (toAbs ⟨y, m, 1⟩) + daysInMonth y m + 6
    - dowAbs (toAbs ⟨y, m, daysInMonth y m⟩)

/-- `GET /calendar/:year/:month`: one cell per day of the Sunday-aligned
grid, flagged `isCurrentMonth` by year-and-month equality with the
requested month.  (The handler also attaches `isToday` and that day's
progress; the claim under verification concerns the dates and the
`isCurrentMonth` flags, which depend on neither.) -/
def buildCalendar (y m : Nat) : List (Date × Bool) :=
  (List.range (calendarLength y m)).map (fun i =>
    let dt := nextDate^[i] (calendarStart y m)
    (dt, dt.y == y && dt.m == m))

/-! ### Generic helper lemmas -/

/-- Counting a conjunction never exceeds counting the base predicate. -/
theorem countP_and_le (l : List ExerciseRow) (p q : ExerciseRow → Bool) :
    l.countP (fun e => p e && q e) ≤ l.countP p := by
  refine List.countP_mono_left ?_
  intro e _ h
  exact (Bool.and_eq_true _ _ ▸ h).1

/-- The code's daily completed count never exceeds the daily total. -/
theorem userCompletedOn_le_userTotal (st : Store) (u d : Nat) :
    userCompletedOn st u d ≤ userTotal st u := by
  refine List.countP_mono_left ?_
  intro e _ h
  simp only [Bool.and_eq_true] at h
  exact h.1.1

/-- The workout completed count never exceeds the workout total. -/
theorem workoutCompletedCount_le_total (st : Store) (wid : Nat) :
    workoutCompletedCount st wid ≤ workoutTotal st wid :=
  countP_and_le _ _ _

/-! ### C10: getWorkoutProgress is total and division-guarded -/

/-- C10: `getWorkoutProgress` is total over all inputs: with no exercise
rows for the id (in particular for an id referencing no existing workout)
it returns `{total: 0, completed: 0, percentage: 0}` rather than a
NotFound failure, and whenever the total is `0` the percentage is `0`. -/
theorem getWorkoutProgress_total_safe (st : Store) (wid : Nat) :
    ((∀ e ∈ st.exercises, e.workout_id ≠ wid) →
      getWorkoutProgress st wid = ⟨0, 0, 0⟩) ∧
    ((getWorkoutProgress st wid).total = 0 →
      (getWorkoutProgress st wid).percentage = 0) := by
  constructor
  · intro h
    have h1 : workoutTotal st wid = 0 := by
      rw [workoutTotal, List.countP_eq_zero]
      intro e he
      simpa using h e he
    have h2 : workoutCompletedCount st wid = 0 :=
      Nat.le_antisymm (h1 ▸ workoutCompletedCount_le_total st wid)
        (Nat.zero_le _)
    simp [getWorkoutProgress, h1, h2]
  · intro h
    have h1 : workoutTotal st wid = 0 := h
    simp [getWorkoutProgress, h1]

/-- C10 witness: a store with one exercise on workout 1; workout 9 has no
rows and no workout record, yet the query answers all-zero. -/
theorem getWorkoutProgress_total_safe_witness :
    getWorkoutProgress ⟨[1], [⟨1, 1, 1, false, none, 0⟩],
      [⟨1, 1, false, none⟩], []⟩ 9 = ⟨0, 0, 0⟩ :=
  (getWorkoutProgress_total_safe
    ⟨[1], [⟨1, 1, 1, false, none, 0⟩], [⟨1, 1, false, none⟩], []⟩ 9).1
    (by decide)

/-! ### C9: which date anchors the daily counts -/

/-- Store refuting the claim for the legacy revision: the single exercise
was completed on day 0, but its workout was created on day 5. -/
def stLegacy : Store :=
  ⟨[1], [⟨1, 1, 3, false, none, 5 * 86400⟩], [⟨1, 1, true, some 0⟩], []⟩

/-- C9 counterexample: the legacy `getDailyProgress` revision counts the
exercise as completed on day 5 (its workout's creation date) although no
exercise has `completed_at` on day 5 — so the completed count is not the
number of exercises whose `completed_at` falls on the queried date. -/
theorem getDailyProgress_creation_keyed_counterexample :
    (getDailyProgressLegacy stLegacy 1 5).completed ≠
      userTimestampOn stLegacy 1 5 := by decide

/-- C9 (amended): in the cascade revision, when no progress snapshot row
exists for `(user, date)`, the completed count is anchored to completion
timestamps: it equals the number of the user's completed exercises whose
`completed_at` falls on that calendar date (the weekday-slot query of
that revision feeds only the total). -/
theorem getDailyProgress_completedAt_anchor (st : Store) (u d : Nat)
    (h : st.progress.find? (fun r => r.user_id == u && r.date == d) = none) :
    (getDailyProgress st u d).completed = userCompletedOn st u d := by
  simp only [getDailyProgress, h]
  split
  · next h' => omega
  · next h' => omega

/-- C9 witness: the amended anchor theorem applied to a store with one
exercise completed on day 5. -/
theorem getDailyProgress_completedAt_anchor_witness :
    (getDailyProgress ⟨[1], [⟨1, 1, 3, false, none, 0⟩],
        [⟨1, 1, true, some (5 * 86400)⟩], []⟩ 1 5).completed =
      userCompletedOn ⟨[1], [⟨1, 1, 3, false, none, 0⟩],
        [⟨1, 1, true, some (5 * 86400)⟩], []⟩ 1 5 :=
  getDailyProgress_completedAt_anchor _ 1 5 (by decide)

/-! ### C5: updateDailyProgress failure modes -/

/-- Referential integrity as enforced by the schema's foreign keys
(`PRAGMA foreign_keys = ON`): every workout's owner exists. -/
def FKConsistent (st : Store) : Prop :=
  ∀ w ∈ st.workouts, w.user_id ∈ st.users

/-- C5: on a foreign-key-consistent store, `updateDailyProgress` fails
with NotFound whenever no existing user owns the referenced workout (in
particular whenever the call is made on behalf of a user that does not
exist, since such a user owns no workout row); and the
completed-exceeds-total integrity guard rejects with a fatal fault before
the upsert, so nothing is written on that path. -/
theorem updateDailyProgress_notFound_and_guard :
    (∀ st now wid, wid ≠ 0 → FKConsistent st →
      (∀ w ∈ st.workouts, w.id = wid → w.user_id ∉ st.users) →
      updateDailyProgress now wid st = .error .notFound) ∧
    (∀ u d tot comp ps, tot < comp →
      writeDailyProgress u d tot comp ps = .error .integrityFault) := by
  constructor
  · intro st now wid hwid hfk hnou
    have hfind : st.workouts.find? (fun w => w.id == wid) = none := by
      rw [List.find?_eq_none]
      intro w hw hid
      exact hnou w hw (by simpa using hid) (hfk w hw)
    have hwid' : (wid == 0) = false := by simpa using hwid
    simp [updateDailyProgress, hwid', hfind]
  · intro u d tot comp ps h
    simp [writeDailyProgress, h]

/-- C5 witness: both conjuncts at concrete inputs — an empty store (no
workout row at all), and the guard at `total = 0 < 1 = completed`. -/
theorem updateDailyProgress_notFound_and_guard_witness :
    updateDailyProgress 0 1 ⟨[], [], [], []⟩ = .error .notFound ∧
    writeDailyProgress 1 0 0 1 [] = .error .integrityFault :=
  ⟨updateDailyProgress_notFound_and_guard.1 ⟨[], [], [], []⟩ 0 1
      (by decide) (by intro w hw; cases hw) (by intro w hw; cases hw),
    updateDailyProgress_notFound_and_guard.2 1 0 0 1 [] (by decide)⟩

/-! ### Streak lemmas (C6, C7) -/

/-- Once the loop has broken out, the walk changes nothing. -/
theorem streakWalk_finished (l : List Bool) :
    ∀ j (s : StreakState), s.finished = true → streakWalk j s l = s := by
  induction l with
  | nil => intro j s _; rfl
  | cons b rest ih =>
    intro j s hf
    have hstep : streakStep j s b = s := by
      simp [streakStep, hf]
    rw [streakWalk, hstep]
    exact ih (j + 1) s hf

/-- Length of the run of `true`s heading the (reversed) series. -/
def leadTrue : List Bool → Nat
  | [] => 0
  | true :: r => leadTrue r + 1
  | false :: _ => 0

/-- While the current streak is alive (positive, unbroken, not finished),
the walk extends it by exactly the leading run of workout days. -/
theorem streakWalk_run (l : List Bool) :
    ∀ j (s : StreakState), s.finished = false → s.streakBroken = false →
      0 < s.currentStreak →
      (streakWalk j s l).currentStreak = s.currentStreak + leadTrue l := by
  induction l with
  | nil => intro j s _ _ _; rfl
  | cons b rest ih =>
    intro j s hf hb hc
    cases b with
    | true =>
      have hstep : streakStep j s true =
          { s with
            currentStreak := s.currentStreak + 1
            tempStreak := s.tempStreak + 1
            lastWorkoutDate :=
              match s.lastWorkoutDate with
              | none => some j
              | some d => some d } := by
        simp [streakStep, hf, hb]
      rw [streakWalk, hstep]
      have ih' := ih (j + 1)
        ({ s with
            currentStreak := s.currentStreak + 1
            tempStreak := s.tempStreak + 1
            lastWorkoutDate :=
              match s.lastWorkoutDate with
              | none => some j
              | some d => some d })
        hf (by simpa using hb) (by simp)
      rw [ih']
      simp [leadTrue]
      omega
    | false =>
      have hcz : (s.currentStreak == 0) = false := by
        simp; omega
      have hstep : streakStep j s false =
          { s with
            longestStreak :=
              if s.longestStreak < s.tempStreak then s.tempStreak
              else s.longestStreak
            tempStreak := 0
            finished := decide (0 < s.currentStreak) } := by
        simp [streakStep, hf, hcz]
      rw [streakWalk, hstep]
      rw [streakWalk_finished rest _ _ (by simp; omega)]
      simp [leadTrue]

/-- After today and yesterday were both empty (`streakBroken` with a zero
current streak), the current streak stays zero for the rest of the walk. -/
theorem streakWalk_broken (l : List Bool) :
    ∀ j (s : StreakState), 2 ≤ j → s.finished = false →
      s.streakBroken = true → s.currentStreak = 0 →
      (streakWalk j s l).currentStreak = 0 := by
  induction l with
  | nil => intro j s _ _ _ hc; exact hc
  | cons b rest ih =>
    intro j s hj hf hb hc
    cases b with
    | true =>
      have hstep : streakStep j s true = { s with tempStreak := s.tempStreak + 1 } := by
        simp [streakStep, hf, hb]
      rw [streakWalk, hstep]
      exact ih (j + 1) _ (by omega) hf hb hc
    | false =>
      have hj0 : (j == 0) = false := by simp; omega
      have hj1 : (j == 1) = false := by simp; omega
      have hstep : streakStep j s false =
          { s with
            longestStreak :=
              if s.longestStreak < s.tempStreak then s.tempStreak
              else s.longestStreak
            tempStreak := 0
            finished := decide (0 < s.currentStreak) } := by
        simp [streakStep, hf, hj0, hj1]
      rw [streakWalk, hstep]
      exact ih (j + 1) _ (by omega) (by simp; omega) hb hc

/-- On an all-empty series the walk keeps all four counters at zero. -/
theorem streakWalk_allFalse (l : List Bool) (hl : ∀ b ∈ l, b = false) :
    ∀ j (s : StreakState), s.currentStreak = 0 → s.longestStreak = 0 →
      s.tempStreak = 0 → s.lastWorkoutDate = none →
      (streakWalk j s l).currentStreak = 0 ∧
      (streakWalk j s l).longestStreak = 0 ∧
      (streakWalk j s l).tempStreak = 0 ∧
      (streakWalk j s l).lastWorkoutDate = none := by
  induction l with
  | nil => intro j s h1 h2 h3 h4; exact ⟨h1, h2, h3, h4⟩
  | cons b rest ih =>
    intro j s h1 h2 h3 h4
    have hb : b = false := hl b (by simp)
    subst hb
    have hrest : ∀ b ∈ rest, b = false := fun b hb => hl b (by simp [hb])
    rw [streakWalk]
    by_cases hf : s.finished = true
    · have hstep : streakStep j s false = s := by simp [streakStep, hf]
      rw [hstep]
      exact (ih hrest) (j + 1) s h1 h2 h3 h4
    · have hf' : s.finished = false := by simpa using hf
      by_cases hg : (s.currentStreak == 0 && (j == 0 || (j == 1 && !s.streakBroken))) = true
      · have hstep : streakStep j s false =
            { s with streakBroken := if j == 1 then true else s.streakBroken } := by
          simp only [streakStep, hf', Bool.false_eq_true, if_false, hg, if_true]
        rw [hstep]
        exact (ih hrest) (j + 1) _ h1 h2 h3 h4
      · have hstep : streakStep j s false =
            { s with
              longestStreak :=
                if s.longestStreak < s.tempStreak then s.tempStreak
                else s.longestStreak
              tempStreak := 0
              finished := decide (0 < s.currentStreak) } := by
          simp only [streakStep, hf', Bool.false_eq_true, if_false, hg]
        rw [hstep]
        refine (ih hrest) (j + 1) _ h1 ?_ rfl h4
        simp [h2, h3]

/-- C7: the streak endpoint always reports `longestStreak >=
currentStreak`, and a window with no workout day at all yields
`currentStreak = 0`, `longestStreak = 0`, `lastWorkoutDate = null`. -/
theorem streaks_monotone_and_empty (h : List Bool) :
    (computeStreaks h).currentStreak ≤ (computeStreaks h).longestStreak ∧
    ((∀ b ∈ h, b = false) → computeStreaks h = ⟨0, 0, none⟩) := by
  constructor
  · simp only [computeStreaks]
    split
    · split
      · omega
      · omega
    · split
      · omega
      · omega
  · intro hall
    have hrev : ∀ b ∈ h.reverse, b = false := by
      intro b hb
      exact hall b (List.mem_reverse.mp hb)
    have hw := streakWalk_allFalse h.reverse hrev 0 initStreak rfl rfl rfl rfl
    simp only [computeStreaks]
    rw [hw.1, hw.2.1, hw.2.2.1]
    simp [hw.1, hw.2.2.2]

/-- C7 witness: the theorem applied to the single-day all-empty history. -/
theorem streaks_monotone_and_empty_witness :
    (computeStreaks [false]).currentStreak ≤
      (computeStreaks [false]).longestStreak ∧
    computeStreaks [false] = ⟨0, 0, none⟩ :=
  ⟨(streaks_monotone_and_empty [false]).1,
    (streaks_monotone_and_empty [false]).2 (by decide)⟩

/-- C6: an empty most-recent day does not by itself break a streak that
continued through yesterday — appending an empty "today" to a history
ending in a workout day leaves `currentStreak` unchanged — but when both
today and yesterday are empty the returned `currentStreak` is `0`, for
every per-day boolean history. -/
theorem streak_grace_period (h : List Bool) :
    (h.getLast? = some true →
      (computeStreaks (h ++ [false])).currentStreak =
        (computeStreaks h).currentStreak) ∧
    (computeStreaks (h ++ [false, false])).currentStreak = 0 := by
  constructor
  · intro hlast
    have hhead : h.reverse.head? = some true := by
      rw [List.head?_reverse]
      exact hlast
    obtain ⟨rest, hrev⟩ : ∃ rest, h.reverse = true :: rest := by
      cases hr : h.reverse with
      | nil => rw [hr] at hhead; cases hhead
      | cons b rest =>
        rw [hr] at hhead
        cases b with
        | true => exact ⟨rest, rfl⟩
        | false => cases hhead
    have hrev' : (h ++ [false]).reverse = false :: true :: rest := by
      rw [List.reverse_append, hrev]
      rfl
    simp only [computeStreaks, hrev, hrev']
    rw [streakWalk, streakWalk, streakWalk]
    have e1 : streakStep 0 initStreak false = initStreak := by decide
    have e2 : streakStep 0 initStreak true =
        ⟨1, 0, 1, some 0, false, false⟩ := by decide
    have e3 : streakStep 1 initStreak true =
        ⟨1, 0, 1, some 1, false, false⟩ := by decide
    rw [e1, e3, e2]
    rw [streakWalk_run rest 2 ⟨1, 0, 1, some 1, false, false⟩ rfl rfl (by decide)]
    rw [streakWalk_run rest 1 ⟨1, 0, 1, some 0, false, false⟩ rfl rfl (by decide)]
  · have hrev : (h ++ [false, false]).reverse = false :: false :: h.reverse := by
      rw [List.reverse_append]
      rfl
    simp only [computeStreaks, hrev]
    rw [streakWalk, streakWalk]
    have e1 : streakStep 0 initStreak false = initStreak := by decide
    have e2 : streakStep 1 initStreak false =
        ⟨0, 0, 0, none, true, false⟩ := by decide
    rw [e1, e2]
    exact streakWalk_broken h.reverse 2 ⟨0, 0, 0, none, true, false⟩
      (by omega) rfl rfl rfl

/-- C6 witness: the theorem applied to the one-day history `[true]`. -/
theorem streak_grace_period_witness :
    (computeStreaks ([true] ++ [false])).currentStreak =
      (computeStreaks [true]).currentStreak ∧
    (computeStreaks ([true] ++ [false, false])).currentStreak = 0 :=
  ⟨(streak_grace_period [true]).1 rfl, (streak_grace_period [true]).2⟩

/-! ### Success-path characterizations of the toggle pipeline -/

/-- A list is unchanged by a map that fixes each of its elements. -/
theorem map_eq_self_of_fix {α : Type} (l : List α) (f : α → α)
    (h : ∀ a ∈ l, f a = a) : l.map f = l := by
  induction l with
  | nil => rfl
  | cons a rest ih =>
    rw [List.map_cons, h a (by simp), ih (fun b hb => h b (by simp [hb]))]

/-- Looking up the upserted key returns the freshly written row. -/
theorem find?_upsertProgress (u d tot comp : Nat) (ps : List ProgressRow) :
    (upsertProgress u d tot comp ps).find?
      (fun r => r.user_id == u && r.date == d) = some ⟨u, d, tot, comp⟩ := by
  induction ps with
  | nil => simp [upsertProgress, List.find?]
  | cons r rest ih =>
    rw [upsertProgress]
    by_cases hk : (r.user_id == u && r.date == d) = true
    · rw [if_pos hk]
      simp [List.find?]
    · rw [if_neg hk]
      rw [List.find?]
      simp only [hk]
      exact ih

/-- Re-upserting the identical row is a no-op. -/
theorem upsertProgress_idem (u d tot comp : Nat) (ps : List ProgressRow) :
    upsertProgress u d tot comp (upsertProgress u d tot comp ps) =
      upsertProgress u d tot comp ps := by
  induction ps with
  | nil => simp [upsertProgress]
  | cons r rest ih =>
    rw [upsertProgress]
    by_cases hk : (r.user_id == u && r.date == d) = true
    · rw [if_pos hk]
      rw [upsertProgress]
      simp [upsertProgress]
    · rw [if_neg hk]
      rw [upsertProgress, if_neg hk, ih]

/-- The exercise UPDATE preserves ids. -/
theorem updExComplete_id (now id : Nat) (e : ExerciseRow) :
    (updExComplete now id e).id = e.id := by
  rw [updExComplete]
  split <;> rfl

/-- The exercise UPDATE preserves workout ownership. -/
theorem updExComplete_wid (now id : Nat) (e : ExerciseRow) :
    (updExComplete now id e).workout_id = e.workout_id := by
  rw [updExComplete]
  split <;> rfl

/-- The inverse UPDATE preserves ids. -/
theorem updExIncomplete_id (id : Nat) (e : ExerciseRow) :
    (updExIncomplete id e).id = e.id := by
  rw [updExIncomplete]
  split <;> rfl

/-- The inverse UPDATE preserves workout ownership. -/
theorem updExIncomplete_wid (id : Nat) (e : ExerciseRow) :
    (updExIncomplete id e).workout_id = e.workout_id := by
  rw [updExIncomplete]
  split <;> rfl

/-- Finding by id commutes with an id-preserving rewrite of the rows. -/
theorem find?_map_id_pres (l : List ExerciseRow) (f : ExerciseRow → ExerciseRow)
    (hf : ∀ e, (f e).id = e.id) (i : Nat) :
    (l.map f).find? (fun x => x.id == i) =
      (l.find? (fun x => x.id == i)).map f := by
  rw [List.find?_map]
  have hp : ((fun x : ExerciseRow => x.id == i) ∘ f) =
      (fun x : ExerciseRow => x.id == i) := by
    funext x
    simp [Function.comp, hf]
  rw [hp]

/-- `updateDailyProgress` on the success path: the looked-up workout's
user gets today's row recomputed and upserted; nothing else changes. -/
theorem updateDailyProgress_ok (now wid : Nat) (st : Store) (w : WorkoutRow)
    (hwid : wid ≠ 0)
    (hw : st.workouts.find? (fun x => x.id == wid) = some w) :
    updateDailyProgress now wid st =
      .ok ⟨st.users, st.workouts, st.exercises,
        upsertProgress w.user_id (dayOf now) (userTotal st w.user_id)
          (userCompletedOn st w.user_id (dayOf now)) st.progress⟩ := by
  have hwid' : (wid == 0) = false := by simpa using hwid
  have hle := userCompletedOn_le_userTotal st w.user_id (dayOf now)
  rcases st with ⟨us, ws, exs, ps⟩
  simp only [updateDailyProgress, hwid', Bool.false_eq_true, if_false, hw,
    writeDailyProgress]
  rw [if_neg (by omega)]

/-- `checkAndUpdateWorkoutCompletion` on the success path: the workout
rows with the id are rewritten according to whether the recount says the
workout is fully completed; exercises and progress are untouched. -/
theorem checkAndUpdateWorkoutCompletion_ok (now wid : Nat) (st : Store)
    (w : WorkoutRow) (hwid : wid ≠ 0)
    (hw : st.workouts.find? (fun x => x.id == wid) = some w) :
    checkAndUpdateWorkoutCompletion now wid st =
      .ok ⟨st.users,
        if 0 < workoutTotal st wid &&
            workoutCompletedCount st wid == workoutTotal st wid then
          st.workouts.map (fun x =>
            if x.id == wid then
              { x with completed := true, completed_at := some now }
            else x)
        else
          st.workouts.map (fun x =>
            if x.id == wid then
              { x with completed := false, completed_at := none }
            else x),
        st.exercises, st.progress⟩ := by
  have hwid' : (wid == 0) = false := by simpa using hwid
  have hle := workoutCompletedCount_le_total st wid
  have hcnt : (st.workouts.countP (fun x => x.id == wid) == 0) = false := by
    have hmem := List.mem_of_find?_eq_some hw
    have hpw := List.find?_some hw
    have hpos : 0 < st.workouts.countP (fun x => x.id == wid) :=
      List.countP_pos_iff.mpr ⟨w, hmem, hpw⟩
    have hne : st.workouts.countP (fun x => x.id == wid) ≠ 0 :=
      Nat.pos_iff_ne_zero.mp hpos
    simpa using hne
  rcases st with ⟨us, ws, exs, ps⟩
  simp only [checkAndUpdateWorkoutCompletion, hwid', Bool.false_eq_true,
    if_false]
  rw [if_neg (by simp only [workoutTotal, workoutCompletedCount] at hle ⊢; omega)]
  simp only [hw]
  by_cases hc : (0 < workoutTotal ⟨us, ws, exs, ps⟩ wid &&
      workoutCompletedCount ⟨us, ws, exs, ps⟩ wid ==
        workoutTotal ⟨us, ws, exs, ps⟩ wid) = true
  · rw [if_pos hc, if_pos hc, workoutMarkCompleted, if_neg (by simp [hwid']),
      if_neg (by simp [hcnt])]
  · rw [if_neg hc, if_neg hc, workoutMarkIncomplete, if_neg (by simp [hwid']),
      if_neg (by simp [hcnt])]

/-- Full success-path behaviour of `Exercise.markCompleted`: the row is
updated first, today's snapshot is recomputed from the updated rows and
upserted, and the workout flag is then recomputed from the updated rows —
in that order. -/
theorem exMarkCompleted_run (now id : Nat) (st : Store) (e : ExerciseRow)
    (w : WorkoutRow)
    (h0 : id ≠ 0)
    (he : st.exercises.find? (fun x => x.id == id) = some e)
    (hwid : e.workout_id ≠ 0)
    (hw : st.workouts.find? (fun x => x.id == e.workout_id) = some w) :
    exMarkCompleted now id st =
      (let exs1 := st.exercises.map (updExComplete now id)
       let st1 : Store := ⟨st.users, st.workouts, exs1, st.progress⟩
       let st2 : Store := ⟨st.users, st.workouts, exs1,
         upsertProgress w.user_id (dayOf now) (userTotal st1 w.user_id)
           (userCompletedOn st1 w.user_id (dayOf now)) st.progress⟩
       ⟨⟨st.users,
         if 0 < workoutTotal st2 e.workout_id &&
             workoutCompletedCount st2 e.workout_id ==
               workoutTotal st2 e.workout_id then
           st.workouts.map (fun x =>
             if x.id == e.workout_id then
               { x with completed := true, completed_at := some now }
             else x)
         else
           st.workouts.map (fun x =>
             if x.id == e.workout_id then
               { x with completed := false, completed_at := none }
             else x),
         exs1, st2.progress⟩,
        .ok (updExComplete now id e),
        [.exUpdate, .dailyRefresh, .cascade]⟩) := by
  have h0' : (id == 0) = false := by simpa using h0
  have hcnt : (st.exercises.countP (fun x => x.id == id) == 0) = false := by
    have hmem := List.mem_of_find?_eq_some he
    have hpe := List.find?_some he
    have hpos : 0 < st.exercises.countP (fun x => x.id == id) :=
      List.countP_pos_iff.mpr ⟨e, hmem, hpe⟩
    have hne : st.exercises.countP (fun x => x.id == id) ≠ 0 :=
      Nat.pos_iff_ne_zero.mp hpos
    simpa using hne
  have hfind1 : (st.exercises.map (updExComplete now id)).find?
      (fun x => x.id == id) = some (updExComplete now id e) := by
    rw [find?_map_id_pres _ _ (updExComplete_id now id) id, he]
    rfl
  rcases st with ⟨us, ws, exs, ps⟩
  have hup := updateDailyProgress_ok now e.workout_id
    ⟨us, ws, exs.map (updExComplete now id), ps⟩ w hwid hw
  simp only [exMarkCompleted, h0', Bool.false_eq_true, if_false, hcnt,
    hfind1, updExComplete_wid, hup]
  have hcasc := checkAndUpdateWorkoutCompletion_ok now e.workout_id
    ⟨us, ws, exs.map (updExComplete now id),
      upsertProgress w.user_id (dayOf now)
        (userTotal ⟨us, ws, exs.map (updExComplete now id), ps⟩ w.user_id)
        (userCompletedOn ⟨us, ws, exs.map (updExComplete now id), ps⟩
          w.user_id (dayOf now)) ps⟩ w hwid hw
  simp only [hcasc]

/-- Full success-path behaviour of `Exercise.markIncomplete`, mirror of
`exMarkCompleted_run`. -/
theorem exMarkIncomplete_run (now id : Nat) (st : Store) (e : ExerciseRow)
    (w : WorkoutRow)
    (h0 : id ≠ 0)
    (he : st.exercises.find? (fun x => x.id == id) = some e)
    (hwid : e.workout_id ≠ 0)
    (hw : st.workouts.find? (fun x => x.id == e.workout_id) = some w) :
    exMarkIncomplete now id st =
      (let exs1 := st.exercises.map (updExIncomplete id)
       let st1 : Store := ⟨st.users, st.workouts, exs1, st.progress⟩
       let st2 : Store := ⟨st.users, st.workouts, exs1,
         upsertProgress w.user_id (dayOf now) (userTotal st1 w.user_id)
           (userCompletedOn st1 w.user_id (dayOf now)) st.progress⟩
       ⟨⟨st.users,
         if 0 < workoutTotal st2 e.workout_id &&
             workoutCompletedCount st2 e.workout_id ==
               workoutTotal st2 e.workout_id then
           st.workouts.map (fun x =>
             if x.id == e.workout_id then
               { x with completed := true, completed_at := some now }
             else x)
         else
           st.workouts.map (fun x =>
             if x.id == e.workout_id then
               { x with completed := false, completed_at := none }
             else x),
         exs1, st2.progress⟩,
        .ok (updExIncomplete id e),
        [.exUpdate, .dailyRefresh, .cascade]⟩) := by
  have h0' : (id == 0) = false := by simpa using h0
  have hcnt : (st.exercises.countP (fun x => x.id == id) == 0) = false := by
    have hmem := List.mem_of_find?_eq_some he
    have hpe := List.find?_some he
    have hpos : 0 < st.exercises.countP (fun x => x.id == id) :=
      List.countP_pos_iff.mpr ⟨e, hmem, hpe⟩
    have hne : st.exercises.countP (fun x => x.id == id) ≠ 0 :=
      Nat.pos_iff_ne_zero.mp hpos
    simpa using hne
  have hfind1 : (st.exercises.map (updExIncomplete id)).find?
      (fun x => x.id == id) = some (updExIncomplete id e) := by
    rw [find?_map_id_pres _ _ (updExIncomplete_id id) id, he]
    rfl
  rcases st with ⟨us, ws, exs, ps⟩
  have hup := updateDailyProgress_ok now e.workout_id
    ⟨us, ws, exs.map (updExIncomplete id), ps⟩ w hwid hw
  simp only [exMarkIncomplete, h0', Bool.false_eq_true, if_false, hcnt,
    hfind1, updExIncomplete_wid, hup]
  have hcasc := checkAndUpdateWorkoutCompletion_ok now e.workout_id
    ⟨us, ws, exs.map (updExIncomplete id),
      upsertProgress w.user_id (dayOf now)
        (userTotal ⟨us, ws, exs.map (updExIncomplete id), ps⟩ w.user_id)
        (userCompletedOn ⟨us, ws, exs.map (updExIncomplete id), ps⟩
          w.user_id (dayOf now)) ps⟩ w hwid hw
  simp only [hcasc]

/-! ### Shape invariance of the store under the toggle pipeline -/

/-- The identifying shape of an exercise row: `(id, workout_id)`. -/
def exPair (e : ExerciseRow) : Nat × Nat := (e.id, e.workout_id)

/-- The identifying shape of a workout row: `(id, user_id)`. -/
def wPair (w : WorkoutRow) : Nat × Nat := (w.id, w.user_id)

/-- `find?` commutes with a row rewrite that does not move the predicate. -/
theorem find?_map_pres {α : Type} (l : List α) (f : α → α) (p : α → Bool)
    (hf : ∀ x, p (f x) = p x) :
    (l.map f).find? p = (l.find? p).map f := by
  rw [List.find?_map]
  have hp : (p ∘ f) = p := funext hf
  rw [hp]

/-- `any` over a mapped list tests the composite predicate. -/
theorem any_map_comp {α β : Type} (l : List α) (f : α → β) (p : β → Bool) :
    (l.map f).any p = l.any (fun x => p (f x)) := by
  induction l with
  | nil => rfl
  | cons a rest ih => simp [ih]

/-- The join membership test only depends on workout `(id, user_id)`s. -/
theorem any_wPair (l : List WorkoutRow) (a u : Nat) :
    l.any (fun w => w.id == a && w.user_id == u) =
      (l.map wPair).any (fun c => c.1 == a && c.2 == u) := by
  rw [any_map_comp]
  rfl

/-- `userExercisePred` only depends on the workout table's shape. -/
theorem userExercisePred_shape (st st' : Store)
    (h : st.workouts.map wPair = st'.workouts.map wPair) (u : Nat)
    (e : ExerciseRow) :
    userExercisePred st u e = userExercisePred st' u e := by
  rw [userExercisePred, userExercisePred, any_wPair, any_wPair, h]

/-- `userTotal` depends only on the exercises and the workout shape. -/
theorem userTotal_shape (us us' : List Nat) (ws ws' : List WorkoutRow)
    (exs : List ExerciseRow) (ps ps' : List ProgressRow) (u : Nat)
    (h : ws.map wPair = ws'.map wPair) :
    userTotal ⟨us, ws, exs, ps⟩ u = userTotal ⟨us', ws', exs, ps'⟩ u := by
  rw [userTotal, userTotal]
  refine List.countP_congr ?_
  intro e _
  rw [userExercisePred_shape ⟨us, ws, exs, ps⟩ ⟨us', ws', exs, ps'⟩ h u e]

/-- `userCompletedOn` depends only on the exercises and workout shape. -/
theorem userCompletedOn_shape (us us' : List Nat) (ws ws' : List WorkoutRow)
    (exs : List ExerciseRow) (ps ps' : List ProgressRow) (u d : Nat)
    (h : ws.map wPair = ws'.map wPair) :
    userCompletedOn ⟨us, ws, exs, ps⟩ u d =
      userCompletedOn ⟨us', ws', exs, ps'⟩ u d := by
  rw [userCompletedOn, userCompletedOn]
  refine List.countP_congr ?_
  intro e _
  rw [userExercisePred_shape ⟨us, ws, exs, ps⟩ ⟨us', ws', exs, ps'⟩ h u e]

/-- The cascade's workout rewrite keeps each row's `(id, user_id)`. -/
theorem wPair_set (wid : Nat) (b : Bool) (t : Option Nat) (x : WorkoutRow) :
    wPair (if x.id == wid then { x with completed := b, completed_at := t }
      else x) = wPair x := by
  by_cases h : (x.id == wid) = true
  · simp [wPair, h]
  · simp [wPair, h]

/-- The cascade's workout rewrite preserves the workout table's shape. -/
theorem map_wPair_set (ws : List WorkoutRow) (wid : Nat) (b : Bool)
    (t : Option Nat) :
    ((ws.map (fun x =>
      if x.id == wid then { x with completed := b, completed_at := t }
      else x)).map wPair) = ws.map wPair := by
  rw [List.map_map]
  refine List.map_congr_left ?_
  intro x _
  exact wPair_set wid b t x

/-- The cascade's workout rewrite is idempotent on each row. -/
theorem set_workout_idem (wid : Nat) (b : Bool) (t : Option Nat)
    (x : WorkoutRow) :
    (fun x : WorkoutRow =>
      if x.id == wid then { x with completed := b, completed_at := t }
      else x)
    ((fun x : WorkoutRow =>
      if x.id == wid then { x with completed := b, completed_at := t }
      else x) x) =
    (fun x : WorkoutRow =>
      if x.id == wid then { x with completed := b, completed_at := t }
      else x) x := by
  by_cases h : (x.id == wid) = true
  · simp [h]
  · simp [h]

/-- The exercise UPDATE of `markCompleted` is idempotent on each row. -/
theorem updExComplete_idem (now id : Nat) (e : ExerciseRow) :
    updExComplete now id (updExComplete now id e) = updExComplete now id e := by
  by_cases h : (e.id == id) = true
  · simp [updExComplete, h]
  · simp [updExComplete, h]

/-- The exercise UPDATE of `markIncomplete` is idempotent on each row. -/
theorem updExIncomplete_idem (id : Nat) (e : ExerciseRow) :
    updExIncomplete id (updExIncomplete id e) = updExIncomplete id e := by
  by_cases h : (e.id == id) = true
  · simp [updExIncomplete, h]
  · simp [updExIncomplete, h]

/-- The exercise UPDATE preserves the exercise table's shape. -/
theorem map_exPair_updExComplete (exs : List ExerciseRow) (now id : Nat) :
    ((exs.map (updExComplete now id)).map exPair) = exs.map exPair := by
  rw [List.map_map]
  refine List.map_congr_left ?_
  intro x _
  simp [exPair, Function.comp, updExComplete_id, updExComplete_wid]

/-- The inverse exercise UPDATE preserves the exercise table's shape. -/
theorem map_exPair_updExIncomplete (exs : List ExerciseRow) (id : Nat) :
    ((exs.map (updExIncomplete id)).map exPair) = exs.map exPair := by
  rw [List.map_map]
  refine List.map_congr_left ?_
  intro x _
  simp [exPair, Function.comp, updExIncomplete_id, updExIncomplete_wid]

/-- The store immediately after `markCompleted`'s exercise UPDATE. -/
def stAfterComplete (now id : Nat) (st : Store) : Store :=
  ⟨st.users, st.workouts, st.exercises.map (updExComplete now id), st.progress⟩

/-- The store immediately after `markIncomplete`'s exercise UPDATE. -/
def stAfterIncomplete (id : Nat) (st : Store) : Store :=
  ⟨st.users, st.workouts, st.exercises.map (updExIncomplete id), st.progress⟩

/-- The cascade's workout rewrite keeps each row's id. -/
theorem set_workout_id (wid : Nat) (b : Bool) (t : Option Nat)
    (x : WorkoutRow) :
    ((fun x : WorkoutRow =>
      if x.id == wid then { x with completed := b, completed_at := t }
      else x) x).id = x.id := by
  by_cases h : (x.id == wid) = true
  · simp [h]
  · simp [h]

/-- After the cascade branch, the stored workout flag is exactly the
branch condition. -/
theorem getWorkoutFlag_after_cascade (us : List Nat) (ws : List WorkoutRow)
    (exs1 : List ExerciseRow) (ps' : List ProgressRow) (wid : Nat)
    (w : WorkoutRow) (now : Nat) (c : Bool)
    (hw : ws.find? (fun x => x.id == wid) = some w) :
    getWorkoutFlag
      ⟨us,
        if c then
          ws.map (fun x =>
            if x.id == wid then
              { x with completed := true, completed_at := some now }
            else x)
        else
          ws.map (fun x =>
            if x.id == wid then
              { x with completed := false, completed_at := none }
            else x),
        exs1, ps'⟩ wid = some c := by
  have hpw := List.find?_some hw
  cases c
  · rw [getWorkoutFlag]
    simp only [Bool.false_eq_true, if_false]
    rw [find?_map_pres _ _ _ (fun x => by
      by_cases hx : (x.id == wid) = true
      · simp [hx]
      · simp [hx]), hw]
    have hp' : w.id = wid := by simpa using hpw
    simp [hp']
  · rw [getWorkoutFlag]
    simp only [if_true]
    rw [find?_map_pres _ _ _ (fun x => by
      by_cases hx : (x.id == wid) = true
      · simp [hx]
      · simp [hx]), hw]
    have hp' : w.id = wid := by simpa using hpw
    simp [hp']

/-- Store for the order counterexample: one user, one workout with two
exercises, nothing completed. -/
def stOrder : Store :=
  ⟨[1], [⟨1, 1, 3, false, none, 0⟩],
    [⟨1, 1, false, none⟩, ⟨2, 1, false, none⟩], []⟩

/-- C2 counterexample: on a concrete store, `markCompleted` does not run
its steps in the order exercise update → workout cascade → daily-progress
refresh; the recorded execution order differs. -/
theorem toggle_order_counterexample :
    (exMarkCompleted 100 1 stOrder).trace ≠
      [Step.exUpdate, Step.cascade, Step.dailyRefresh] := by decide

/-- C2 (amended): within a single `markCompleted` or `markIncomplete`
call the steps run in the strict order exercise record update, then
daily-progress refresh, then workout completion cascade — and each of the
two later steps reads the exercise state just written by the first:
the upserted snapshot and the final workout flag are computed from the
updated exercise rows. -/
theorem toggle_step_order (now id : Nat) (st : Store) (e : ExerciseRow)
    (w : WorkoutRow)
    (h0 : id ≠ 0)
    (he : st.exercises.find? (fun x => x.id == id) = some e)
    (hwid : e.workout_id ≠ 0)
    (hw : st.workouts.find? (fun x => x.id == e.workout_id) = some w) :
    (exMarkCompleted now id st).trace =
      [Step.exUpdate, Step.dailyRefresh, Step.cascade] ∧
    (exMarkIncomplete now id st).trace =
      [Step.exUpdate, Step.dailyRefresh, Step.cascade] ∧
    (exMarkCompleted now id st).store.progress =
      upsertProgress w.user_id (dayOf now)
        (userTotal (stAfterComplete now id st) w.user_id)
        (userCompletedOn (stAfterComplete now id st) w.user_id (dayOf now))
        st.progress ∧
    getWorkoutFlag (exMarkCompleted now id st).store e.workout_id =
      some (0 < workoutTotal (stAfterComplete now id st) e.workout_id &&
        workoutCompletedCount (stAfterComplete now id st) e.workout_id ==
          workoutTotal (stAfterComplete now id st) e.workout_id) := by
  rcases st with ⟨us, ws, exs, ps⟩
  rw [exMarkCompleted_run now id ⟨us, ws, exs, ps⟩ e w h0 he hwid hw,
    exMarkIncomplete_run now id ⟨us, ws, exs, ps⟩ e w h0 he hwid hw]
  refine ⟨rfl, rfl, rfl, ?_⟩
  exact getWorkoutFlag_after_cascade us ws
    (exs.map (updExComplete now id)) _ e.workout_id w now _ hw

/-- C2 witness: the order theorem applied to the concrete store. -/
theorem toggle_step_order_witness :
    (exMarkCompleted 100 1 stOrder).trace =
      [Step.exUpdate, Step.dailyRefresh, Step.cascade] ∧
    (exMarkIncomplete 100 1 stOrder).trace =
      [Step.exUpdate, Step.dailyRefresh, Step.cascade] :=
  ⟨(toggle_step_order 100 1 stOrder ⟨1, 1, false, none⟩
      ⟨1, 1, 3, false, none, 0⟩ (by decide) (by decide) (by decide)
      (by decide)).1,
    (toggle_step_order 100 1 stOrder ⟨1, 1, false, none⟩
      ⟨1, 1, 3, false, none, 0⟩ (by decide) (by decide) (by decide)
      (by decide)).2.1⟩

/-- Applying an idempotent row rewrite twice is the same as once. -/
theorem map_map_idem {α : Type} (l : List α) (f : α → α)
    (h : ∀ x, f (f x) = f x) : (l.map f).map f = l.map f := by
  rw [List.map_map]
  refine List.map_congr_left ?_
  intro x _
  exact h x

/-- C3 (amended): with the two calls carrying the same current
timestamp, calling `markCompleted` twice in a row is exactly the same as
calling it once — same persisted Exercise, Workout and DailyProgress
state, same returned exercise, same step trace.  (At a later timestamp
the second call re-stamps `completed_at`, which is what the
counterexample exhibits.) -/
theorem exMarkCompleted_idem (now id : Nat) (st : Store) (e : ExerciseRow)
    (w : WorkoutRow)
    (h0 : id ≠ 0)
    (he : st.exercises.find? (fun x => x.id == id) = some e)
    (hwid : e.workout_id ≠ 0)
    (hw : st.workouts.find? (fun x => x.id == e.workout_id) = some w) :
    exMarkCompleted now id (exMarkCompleted now id st).store =
      exMarkCompleted now id st := by
  rcases st with ⟨us, ws, exs, ps⟩
  have hpw := List.find?_some hw
  have hpw' : w.id = e.workout_id := by simpa using hpw
  rw [exMarkCompleted_run now id ⟨us, ws, exs, ps⟩ e w h0 he hwid hw]
  simp only []
  set exs1 := exs.map (updExComplete now id) with hexs1
  set tot1 := userTotal ⟨us, ws, exs1, ps⟩ w.user_id with htot1
  set comp1 := userCompletedOn ⟨us, ws, exs1, ps⟩ w.user_id (dayOf now) with hcomp1
  set ps1 := upsertProgress w.user_id (dayOf now) tot1 comp1 ps with hps1
  set cnd := (0 < workoutTotal ⟨us, ws, exs1, ps1⟩ e.workout_id &&
    (workoutCompletedCount ⟨us, ws, exs1, ps1⟩ e.workout_id ==
      workoutTotal ⟨us, ws, exs1, ps1⟩ e.workout_id) : Bool) with hcnd
  have he2 : exs1.find? (fun x => x.id == id) =
      some (updExComplete now id e) := by
    rw [hexs1, find?_map_id_pres _ _ (updExComplete_id now id) id, he]
    rfl
  have hwid2 : (updExComplete now id e).workout_id ≠ 0 := by
    rw [updExComplete_wid]
    exact hwid
  have hexsI : exs1.map (updExComplete now id) = exs1 := by
    rw [hexs1]
    exact map_map_idem exs _ (updExComplete_idem now id)
  by_cases hcv : cnd = true
  · rw [if_pos hcv]
    have hw2 : (ws.map (fun x =>
        if x.id == e.workout_id then
          { x with completed := true, completed_at := some now }
        else x)).find?
          (fun x => x.id == (updExComplete now id e).workout_id) =
        some { w with completed := true, completed_at := some now } := by
      simp only [updExComplete_wid]
      rw [find?_map_pres _ _ _ (fun x => by
        by_cases hx : (x.id == e.workout_id) = true
        · simp [hx]
        · simp [hx]), hw]
      simp [hpw']
    rw [exMarkCompleted_run now id ⟨us, ws.map (fun x =>
        if x.id == e.workout_id then
          { x with completed := true, completed_at := some now }
        else x), exs1, ps1⟩ (updExComplete now id e)
        ({ w with completed := true, completed_at := some now }) h0 he2 hwid2 hw2]
    simp only [updExComplete_wid, hexsI]
    have hshapeT : (ws.map (fun x =>
        if x.id == e.workout_id then
          { x with completed := true, completed_at := some now }
        else x)).map wPair = ws.map wPair :=
      map_wPair_set ws e.workout_id true (some now)
    have htot2 : userTotal ⟨us, ws.map (fun x =>
        if x.id == e.workout_id then
          { x with completed := true, completed_at := some now }
        else x), exs1, ps1⟩ w.user_id = tot1 := by
      rw [htot1]
      exact userTotal_shape us us _ ws exs1 ps1 ps w.user_id hshapeT
    have hcomp2 : userCompletedOn ⟨us, ws.map (fun x =>
        if x.id == e.workout_id then
          { x with completed := true, completed_at := some now }
        else x), exs1, ps1⟩ w.user_id (dayOf now) = comp1 := by
      rw [hcomp1]
      exact userCompletedOn_shape us us _ ws exs1 ps1 ps w.user_id (dayOf now)
        hshapeT
    rw [htot2, hcomp2]
    have hpsI : upsertProgress w.user_id (dayOf now) tot1 comp1 ps1 = ps1 := by
      rw [hps1]
      exact upsertProgress_idem _ _ _ _ ps
    rw [hpsI]
    have hc2 : (0 < workoutTotal ⟨us, ws.map (fun x =>
        if x.id == e.workout_id then
          { x with completed := true, completed_at := some now }
        else x), exs1, ps1⟩ e.workout_id &&
        (workoutCompletedCount ⟨us, ws.map (fun x =>
          if x.id == e.workout_id then
            { x with completed := true, completed_at := some now }
          else x), exs1, ps1⟩ e.workout_id ==
          workoutTotal ⟨us, ws.map (fun x =>
            if x.id == e.workout_id then
              { x with completed := true, completed_at := some now }
            else x), exs1, ps1⟩ e.workout_id) : Bool) = cnd := by
      rw [hcnd]
      rfl
    rw [hc2, if_pos hcv]
    have hwsT : (ws.map (fun x =>
        if x.id == e.workout_id then
          { x with completed := true, completed_at := some now }
        else x)).map (fun x =>
        if x.id == e.workout_id then
          { x with completed := true, completed_at := some now }
        else x) = ws.map (fun x =>
        if x.id == e.workout_id then
          { x with completed := true, completed_at := some now }
        else x) :=
      map_map_idem ws _ (set_workout_idem e.workout_id true (some now))
    rw [hwsT, updExComplete_idem]
  · rw [if_neg hcv]
    have hw2 : (ws.map (fun x =>
        if x.id == e.workout_id then
          { x with completed := false, completed_at := none }
        else x)).find?
          (fun x => x.id == (updExComplete now id e).workout_id) =
        some { w with completed := false, completed_at := none } := by
      simp only [updExComplete_wid]
      rw [find?_map_pres _ _ _ (fun x => by
        by_cases hx : (x.id == e.workout_id) = true
        · simp [hx]
        · simp [hx]), hw]
      simp [hpw']
    rw [exMarkCompleted_run now id ⟨us, ws.map (fun x =>
        if x.id == e.workout_id then
          { x with completed := false, completed_at := none }
        else x), exs1, ps1⟩ (updExComplete now id e)
        ({ w with completed := false, completed_at := none }) h0 he2 hwid2 hw2]
    simp only [updExComplete_wid, hexsI]
    have hshapeF : (ws.map (fun x =>
        if x.id == e.workout_id then
          { x with completed := false, completed_at := none }
        else x)).map wPair = ws.map wPair :=
      map_wPair_set ws e.workout_id false none
    have htot2 : userTotal ⟨us, ws.map (fun x =>
        if x.id == e.workout_id then
          { x with completed := false, completed_at := none }
        else x), exs1, ps1⟩ w.user_id = tot1 := by
      rw [htot1]
      exact userTotal_shape us us _ ws exs1 ps1 ps w.user_id hshapeF
    have hcomp2 : userCompletedOn ⟨us, ws.map (fun x =>
        if x.id == e.workout_id then
          { x with completed := false, completed_at := none }
        else x), exs1, ps1⟩ w.user_id (dayOf now) = comp1 := by
      rw [hcomp1]
      exact userCompletedOn_shape us us _ ws exs1 ps1 ps w.user_id (dayOf now)
        hshapeF
    rw [htot2, hcomp2]
    have hpsI : upsertProgress w.user_id (dayOf now) tot1 comp1 ps1 = ps1 := by
      rw [hps1]
      exact upsertProgress_idem _ _ _ _ ps
    rw [hpsI]
    have hc2 : (0 < workoutTotal ⟨us, ws.map (fun x =>
        if x.id == e.workout_id then
          { x with completed := false, completed_at := none }
        else x), exs1, ps1⟩ e.workout_id &&
        (workoutCompletedCount ⟨us, ws.map (fun x =>
          if x.id == e.workout_id then
            { x with completed := false, completed_at := none }
          else x), exs1, ps1⟩ e.workout_id ==
          workoutTotal ⟨us, ws.map (fun x =>
            if x.id == e.workout_id then
              { x with completed := false, completed_at := none }
            else x), exs1, ps1⟩ e.workout_id) : Bool) = cnd := by
      rw [hcnd]
      rfl
    rw [hc2, if_neg hcv]
    have hwsF : (ws.map (fun x =>
        if x.id == e.workout_id then
          { x with completed := false, completed_at := none }
        else x)).map (fun x =>
        if x.id == e.workout_id then
          { x with completed := false, completed_at := none }
        else x) = ws.map (fun x =>
        if x.id == e.workout_id then
          { x with completed := false, completed_at := none }
        else x) :=
      map_map_idem ws _ (set_workout_idem e.workout_id false none)
    rw [hwsF, updExComplete_idem]

/-- Store for the idempotence counterexample: one workout, two exercises,
nothing completed. -/
def stTwice : Store :=
  ⟨[1], [⟨1, 1, 3, false, none, 0⟩],
    [⟨1, 1, false, none⟩, ⟨2, 1, false, none⟩], []⟩

/-- C3 counterexample: calling `markCompleted` twice in a row, the second
call one second after the first, changes the persisted state — the
exercise's `completed_at` is re-stamped by the unconditional
`completed_at = CURRENT_TIMESTAMP` UPDATE. -/
theorem markCompleted_twice_counterexample :
    (exMarkCompleted 1 1 (exMarkCompleted 0 1 stTwice).store).store ≠
      (exMarkCompleted 0 1 stTwice).store := by decide

/-- C3 witness: the amended idempotence theorem at a concrete store. -/
theorem exMarkCompleted_idem_witness :
    exMarkCompleted 7 1 (exMarkCompleted 7 1 stTwice).store =
      exMarkCompleted 7 1 stTwice :=
  exMarkCompleted_idem 7 1 stTwice ⟨1, 1, false, none⟩
    ⟨1, 1, 3, false, none, 0⟩ (by decide) (by decide) (by decide) (by decide)

/-! ### C4: snapshot accuracy and upsert idempotence -/

/-- The Exercise data-model invariant: `completed_at` is non-null iff
`completed` is true. -/
def ExerciseInvariant (st : Store) : Prop :=
  ∀ e ∈ st.exercises, e.completed = true ↔ e.completed_at ≠ none

/-- Under the data-model invariant, the code's completed-today count (flag
AND timestamp) coincides with the spec's timestamp-only count. -/
theorem userCompletedOn_eq_timestampOn (st : Store) (u d : Nat)
    (hinv : ExerciseInvariant st) :
    userCompletedOn st u d = userTimestampOn st u d := by
  rw [userCompletedOn, userTimestampOn]
  refine List.countP_congr ?_
  intro e he
  cases hat : e.completed_at with
  | none => simp [hat]
  | some t =>
    have hcomp : e.completed = true := (hinv e he).mpr (by simp [hat])
    simp [hat, hcomp]

/-- C4: after a successful `updateDailyProgress`, the DailyProgress row
for `(user, today)` exists and holds the user's total exercise count and
the number of the user's exercises whose `completed_at` falls on today's
date; the write is an upsert keyed by `(user id, date)` that overwrites
in place, and an immediately repeated call is a no-op (counts never
accumulate). -/
theorem updateDailyProgress_snapshot (now wid : Nat) (st : Store)
    (w : WorkoutRow)
    (hwid : wid ≠ 0)
    (hw : st.workouts.find? (fun x => x.id == wid) = some w)
    (hinv : ExerciseInvariant st) :
    ∃ st', updateDailyProgress now wid st = .ok st' ∧
      lookupProgress st' w.user_id (dayOf now) =
        some (userTotal st w.user_id,
          userTimestampOn st w.user_id (dayOf now)) ∧
      st'.users = st.users ∧ st'.workouts = st.workouts ∧
      st'.exercises = st.exercises ∧
      st'.progress = upsertProgress w.user_id (dayOf now)
        (userTotal st w.user_id)
        (userCompletedOn st w.user_id (dayOf now)) st.progress ∧
      updateDailyProgress now wid st' = .ok st' := by
  have hts := userCompletedOn_eq_timestampOn st w.user_id (dayOf now) hinv
  rcases st with ⟨us, ws, exs, ps⟩
  replace hw : ws.find? (fun x => x.id == wid) = some w := hw
  refine ⟨⟨us, ws, exs,
    upsertProgress w.user_id (dayOf now)
      (userTotal ⟨us, ws, exs, ps⟩ w.user_id)
      (userCompletedOn ⟨us, ws, exs, ps⟩ w.user_id (dayOf now)) ps⟩,
    updateDailyProgress_ok now wid ⟨us, ws, exs, ps⟩ w hwid hw,
    ?_, rfl, rfl, rfl, rfl, ?_⟩
  · rw [lookupProgress]
    simp only [find?_upsertProgress]
    simp [hts]
  · have hok := updateDailyProgress_ok now wid
      ⟨us, ws, exs, upsertProgress w.user_id (dayOf now)
        (userTotal ⟨us, ws, exs, ps⟩ w.user_id)
        (userCompletedOn ⟨us, ws, exs, ps⟩ w.user_id (dayOf now)) ps⟩
      w hwid hw
    rw [hok]
    show Except.ok (⟨us, ws, exs,
      upsertProgress w.user_id (dayOf now)
        (userTotal ⟨us, ws, exs, ps⟩ w.user_id)
        (userCompletedOn ⟨us, ws, exs, ps⟩ w.user_id (dayOf now))
        (upsertProgress w.user_id (dayOf now)
          (userTotal ⟨us, ws, exs, ps⟩ w.user_id)
          (userCompletedOn ⟨us, ws, exs, ps⟩ w.user_id (dayOf now)) ps)⟩ :
        Store) = _
    rw [upsertProgress_idem]

/-- Store for the snapshot witness: two exercises, one completed today. -/
def stDaily : Store :=
  ⟨[1], [⟨1, 1, 3, false, none, 0⟩],
    [⟨1, 1, true, some 0⟩, ⟨2, 1, false, none⟩], []⟩

/-- C4 witness: the snapshot theorem at a concrete store. -/
theorem updateDailyProgress_snapshot_witness :
    ∃ st', updateDailyProgress 5 1 stDaily = .ok st' ∧
      lookupProgress st' 1 (dayOf 5) =
        some (userTotal stDaily 1, userTimestampOn stDaily 1 (dayOf 5)) ∧
      st'.users = stDaily.users ∧ st'.workouts = stDaily.workouts ∧
      st'.exercises = stDaily.exercises ∧
      st'.progress = upsertProgress 1 (dayOf 5) (userTotal stDaily 1)
        (userCompletedOn stDaily 1 (dayOf 5)) stDaily.progress ∧
      updateDailyProgress 5 1 st' = .ok st' :=
  updateDailyProgress_snapshot 5 1 stDaily ⟨1, 1, 3, false, none, 0⟩
    (by decide) (by decide) (by unfold ExerciseInvariant; decide)

/-! ### C1: the workout-completion invariant under toggle sequences -/

/-- One completion toggle: which call, which exercise id, at what time. -/
structure Toggle where
  complete : Bool
  exId : Nat
  now : Nat

/-- Apply one toggle call; the persisted store is whatever the call left
behind. -/
def applyToggle (st : Store) (t : Toggle) : Store :=
  if t.complete then (exMarkCompleted t.now t.exId st).store
  else (exMarkIncomplete t.now t.exId st).store

/-- Run a sequence of toggle calls left to right. -/
def runToggles (st : Store) (ops : List Toggle) : Store :=
  ops.foldl applyToggle st

/-- A toggle call on one of workout `wid`'s exercises, in a store where
that workout exists (stated on the id shapes, which toggles preserve). -/
def TogValid (st : Store) (wid : Nat) (t : Toggle) : Prop :=
  t.exId ≠ 0 ∧ wid ≠ 0 ∧
  (∃ pr, (st.exercises.map exPair).find? (fun c => c.1 == t.exId) =
    some pr ∧ pr.2 = wid) ∧
  (st.workouts.map wPair).any (fun c => c.1 == wid) = true

/-- Unpack a `TogValid` into row-level facts about the store. -/
theorem togValid_elim (st : Store) (wid : Nat) (t : Toggle)
    (hv : TogValid st wid t) :
    ∃ e w, st.exercises.find? (fun x => x.id == t.exId) = some e ∧
      e.workout_id = wid ∧
      st.workouts.find? (fun x => x.id == wid) = some w := by
  obtain ⟨h1, h2, ⟨pr, hpr, hpr2⟩, h4⟩ := hv
  rw [List.find?_map] at hpr
  cases hfe : st.exercises.find?
      ((fun c : Nat × Nat => c.1 == t.exId) ∘ exPair) with
  | none => rw [hfe] at hpr; cases hpr
  | some e =>
    rw [hfe] at hpr
    have hpe : exPair e = pr := by
      simpa using hpr
    have hwid : e.workout_id = wid := by
      rw [← hpr2, ← hpe]
      rfl
    rw [any_map_comp] at h4
    have h4' : ∃ x ∈ st.workouts, (x.id == wid) = true := by
      simpa using List.any_eq_true.mp h4
    cases hfw : st.workouts.find? (fun x => x.id == wid) with
    | none =>
      rw [List.find?_eq_none] at hfw
      obtain ⟨x, hx, hpx⟩ := h4'
      exact absurd hpx (by simpa using hfw x hx)
    | some w =>
      exact ⟨e, w, hfe, hwid, rfl⟩

/-- After one valid toggle, the stored workout flag equals the recomputed
condition `total > 0 && completed == total`, and the store's id shapes
are unchanged. -/
theorem applyToggle_invariant (st : Store) (wid : Nat) (t : Toggle)
    (hv : TogValid st wid t) :
    getWorkoutFlag (applyToggle st t) wid =
      some (0 < workoutTotal (applyToggle st t) wid &&
        workoutCompletedCount (applyToggle st t) wid ==
          workoutTotal (applyToggle st t) wid) ∧
    (applyToggle st t).exercises.map exPair = st.exercises.map exPair ∧
    (applyToggle st t).workouts.map wPair = st.workouts.map wPair := by
  obtain ⟨e, w, he, hewid, hw⟩ := togValid_elim st wid t hv
  obtain ⟨h1, h2, _, _⟩ := hv
  subst hewid
  rcases st with ⟨us, ws, exs, ps⟩
  replace he : exs.find? (fun x => x.id == t.exId) = some e := he
  replace hw : ws.find? (fun x => x.id == e.workout_id) = some w := hw
  cases hcpl : t.complete with
  | true =>
    have hrw : applyToggle ⟨us, ws, exs, ps⟩ t =
        (exMarkCompleted t.now t.exId ⟨us, ws, exs, ps⟩).store := by
      rw [applyToggle, if_pos hcpl]
    rw [hrw,
      exMarkCompleted_run t.now t.exId ⟨us, ws, exs, ps⟩ e w h1 he h2 hw]
    simp only []
    refine ⟨?_, map_exPair_updExComplete exs t.now t.exId, ?_⟩
    · rw [getWorkoutFlag_after_cascade us ws _ _ e.workout_id w t.now _ hw]
      rfl
    · by_cases hc : (0 < workoutTotal ⟨us, ws,
          exs.map (updExComplete t.now t.exId),
          upsertProgress w.user_id (dayOf t.now)
            (userTotal ⟨us, ws, exs.map (updExComplete t.now t.exId), ps⟩
              w.user_id)
            (userCompletedOn ⟨us, ws, exs.map (updExComplete t.now t.exId),
              ps⟩ w.user_id (dayOf t.now)) ps⟩ e.workout_id &&
          (workoutCompletedCount ⟨us, ws,
            exs.map (updExComplete t.now t.exId),
            upsertProgress w.user_id (dayOf t.now)
              (userTotal ⟨us, ws, exs.map (updExComplete t.now t.exId), ps⟩
                w.user_id)
              (userCompletedOn ⟨us, ws,
                exs.map (updExComplete t.now t.exId), ps⟩
                w.user_id (dayOf t.now)) ps⟩ e.workout_id ==
            workoutTotal ⟨us, ws, exs.map (updExComplete t.now t.exId),
              upsertProgress w.user_id (dayOf t.now)
                (userTotal ⟨us, ws, exs.map (updExComplete t.now t.exId),
                  ps⟩ w.user_id)
                (userCompletedOn ⟨us, ws,
                  exs.map (updExComplete t.now t.exId), ps⟩
                  w.user_id (dayOf t.now)) ps⟩ e.workout_id) : Bool) = true
      · rw [if_pos hc]
        exact map_wPair_set ws e.workout_id true (some t.now)
      · rw [if_neg hc]
        exact map_wPair_set ws e.workout_id false none
  | false =>
    have hrw : applyToggle ⟨us, ws, exs, ps⟩ t =
        (exMarkIncomplete t.now t.exId ⟨us, ws, exs, ps⟩).store := by
      rw [applyToggle, hcpl]
      rfl
    rw [hrw,
      exMarkIncomplete_run t.now t.exId ⟨us, ws, exs, ps⟩ e w h1 he h2 hw]
    simp only []
    refine ⟨?_, map_exPair_updExIncomplete exs t.exId, ?_⟩
    · rw [getWorkoutFlag_after_cascade us ws _ _ e.workout_id w t.now _ hw]
      rfl
    · by_cases hc : (0 < workoutTotal ⟨us, ws,
          exs.map (updExIncomplete t.exId),
          upsertProgress w.user_id (dayOf t.now)
            (userTotal ⟨us, ws, exs.map (updExIncomplete t.exId), ps⟩
              w.user_id)
            (userCompletedOn ⟨us, ws, exs.map (updExIncomplete t.exId),
              ps⟩ w.user_id (dayOf t.now)) ps⟩ e.workout_id &&
          (workoutCompletedCount ⟨us, ws,
            exs.map (updExIncomplete t.exId),
            upsertProgress w.user_id (dayOf t.now)
              (userTotal ⟨us, ws, exs.map (updExIncomplete t.exId), ps⟩
                w.user_id)
              (userCompletedOn ⟨us, ws,
                exs.map (updExIncomplete t.exId), ps⟩
                w.user_id (dayOf t.now)) ps⟩ e.workout_id ==
            workoutTotal ⟨us, ws, exs.map (updExIncomplete t.exId),
              upsertProgress w.user_id (dayOf t.now)
                (userTotal ⟨us, ws, exs.map (updExIncomplete t.exId),
                  ps⟩ w.user_id)
                (userCompletedOn ⟨us, ws,
                  exs.map (updExIncomplete t.exId), ps⟩
                  w.user_id (dayOf t.now)) ps⟩ e.workout_id) : Bool) = true
      · rw [if_pos hc]
        exact map_wPair_set ws e.workout_id true (some t.now)
      · rw [if_neg hc]
        exact map_wPair_set ws e.workout_id false none

/-- The flag invariant after any nonempty valid toggle sequence. -/
theorem runToggles_flag (wid : Nat) :
    ∀ (ops : List Toggle) (st : Store),
      (∀ t ∈ ops, TogValid st wid t) → ops ≠ [] →
      getWorkoutFlag (runToggles st ops) wid =
        some (0 < workoutTotal (runToggles st ops) wid &&
          workoutCompletedCount (runToggles st ops) wid ==
            workoutTotal (runToggles st ops) wid) := by
  intro ops
  induction ops with
  | nil => intro st _ h; cases h rfl
  | cons t rest ih =>
    intro st hv _
    have hla := applyToggle_invariant st wid t (hv t (by simp))
    cases hrest : rest with
    | nil =>
      subst hrest
      simpa [runToggles] using hla.1
    | cons t2 r2 =>
      rw [← hrest]
      have hstep : runToggles st (t :: rest) =
          runToggles (applyToggle st t) rest := by
        rw [runToggles, runToggles, List.foldl_cons]
      rw [hstep]
      refine ih (applyToggle st t) ?_ (by simp [hrest])
      intro t' ht'
      have hvt' := hv t' (by simp [ht'])
      obtain ⟨g1, g2, g3, g4⟩ := hvt'
      refine ⟨g1, g2, ?_, ?_⟩
      · rw [hla.2.1]
        exact g3
      · rw [hla.2.2]
        exact g4

/-- The cascade never marks a workout with zero exercises completed. -/
theorem cascade_zero_exercises (now wid : Nat) (st : Store) (w : WorkoutRow)
    (hwid : wid ≠ 0)
    (hw : st.workouts.find? (fun x => x.id == wid) = some w)
    (h0 : workoutTotal st wid = 0) :
    ∃ st', checkAndUpdateWorkoutCompletion now wid st = .ok st' ∧
      getWorkoutFlag st' wid = some false := by
  rcases st with ⟨us, ws, exs, ps⟩
  replace hw : ws.find? (fun x => x.id == wid) = some w := hw
  have hok := checkAndUpdateWorkoutCompletion_ok now wid ⟨us, ws, exs, ps⟩ w
    hwid hw
  refine ⟨_, hok, ?_⟩
  have hc : (0 < workoutTotal ⟨us, ws, exs, ps⟩ wid &&
      (workoutCompletedCount ⟨us, ws, exs, ps⟩ wid ==
        workoutTotal ⟨us, ws, exs, ps⟩ wid) : Bool) = false := by
    simp [h0]
  rw [hc]
  exact getWorkoutFlag_after_cascade us ws exs ps wid w now false hw

/-- C1: for every workout, after any nonempty sequence of valid
mark-complete / mark-incomplete calls on its exercises, the persisted
`completed` flag equals `exercise count > 0 AND completed count ==
exercise count`; and the cascade run on a workout with zero exercises
always stores `completed = false`. -/
theorem workout_cascade_invariant :
    (∀ (wid : Nat) (ops : List Toggle) (st : Store),
      (∀ t ∈ ops, TogValid st wid t) → ops ≠ [] →
      getWorkoutFlag (runToggles st ops) wid =
        some (0 < workoutTotal (runToggles st ops) wid &&
          workoutCompletedCount (runToggles st ops) wid ==
            workoutTotal (runToggles st ops) wid)) ∧
    (∀ (now wid : Nat) (st : Store) (w : WorkoutRow), wid ≠ 0 →
      st.workouts.find? (fun x => x.id == wid) = some w →
      workoutTotal st wid = 0 →
      ∃ st', checkAndUpdateWorkoutCompletion now wid st = .ok st' ∧
        getWorkoutFlag st' wid = some false) :=
  ⟨fun wid ops st hv hne => runToggles_flag wid ops st hv hne,
    fun now wid st w hwid hw h0 =>
      cascade_zero_exercises now wid st w hwid hw h0⟩

/-- Store for the cascade-invariant witness: one workout with two
exercises, plus a second, empty workout. -/
def stCascade : Store :=
  ⟨[1], [⟨1, 1, 3, false, none, 0⟩, ⟨2, 1, 4, true, some 0, 0⟩],
    [⟨1, 1, false, none⟩, ⟨2, 1, false, none⟩], []⟩

/-- C1 witness: one completed toggle on exercise 1 of workout 1, and the
cascade on the empty workout 2. -/
theorem workout_cascade_invariant_witness :
    getWorkoutFlag (runToggles stCascade [⟨true, 1, 50⟩]) 1 =
      some (0 < workoutTotal (runToggles stCascade [⟨true, 1, 50⟩]) 1 &&
        workoutCompletedCount (runToggles stCascade [⟨true, 1, 50⟩]) 1 ==
          workoutTotal (runToggles stCascade [⟨true, 1, 50⟩]) 1) ∧
    (∃ st', checkAndUpdateWorkoutCompletion 50 2 stCascade = .ok st' ∧
      getWorkoutFlag st' 2 = some false) :=
  ⟨workout_cascade_invariant.1 1 [⟨true, 1, 50⟩] stCascade
      (by
        intro t ht
        simp only [List.mem_singleton] at ht
        subst ht
        exact ⟨by decide, by decide, ⟨(1, 1), by decide, by decide⟩,
          by decide⟩)
      (by simp),
    workout_cascade_invariant.2 50 2 stCascade ⟨2, 1, 4, true, some 0, 0⟩
      (by decide) (by decide) (by decide)⟩

/-! ### C8: calendar date arithmetic -/

/-- Every month has at least one day. -/
theorem daysInMonth_pos (y m : Nat) : 1 ≤ daysInMonth y m := by
  rw [daysInMonth]
  split
  · split <;> omega
  · split <;> omega

/-- Days-before-month advances by the month length. -/
theorem daysBeforeMonth_succ (y k : Nat) :
    daysBeforeMonth y (k + 2) = daysBeforeMonth y (k + 1) + daysInMonth y (k + 1) := by
  rw [daysBeforeMonth, daysBeforeMonth]
  simp only [show k + 2 - 1 = k + 1 from rfl, show k + 1 - 1 = k from rfl]
  rw [List.range_succ, List.foldl_append]
  rfl

/-- January has no preceding months. -/
theorem daysBeforeMonth_one (y : Nat) : daysBeforeMonth y 1 = 0 := rfl

/-- December always has 31 days. -/
theorem daysInMonth_twelve (y : Nat) : daysInMonth y 12 = 31 := rfl

/-- The months before December sum to 334 days plus the leap day. -/
theorem daysBeforeMonth_twelve (y : Nat) :
    daysBeforeMonth y 12 = 334 + (if isLeap y then 1 else 0) := by
  rw [daysBeforeMonth, show (12 : Nat) - 1 = 11 from rfl,
    show List.range 11 = [0, 1, 2, 3, 4, 5, 6, 7, 8, 9, 10] from by decide]
  cases hL : isLeap y with
  | false => simp [daysInMonth, hL]
  | true => simp [daysInMonth, hL]

set_option maxHeartbeats 800000 in
/-- Days-before-year advances by the year length. -/
theorem daysBeforeYear_succ (y : Nat) :
    daysBeforeYear (y + 1) =
      daysBeforeYear y + (if isLeap y then 366 else 365) := by
  cases hL : isLeap y with
  | true =>
    have h : (y % 4 = 0 ∧ y % 100 ≠ 0) ∨ y % 400 = 0 := by
      have hb := hL
      rw [isLeap] at hb
      simpa using hb
    rw [if_pos rfl, daysBeforeYear, daysBeforeYear]
    clear hL
    omega
  | false =>
    have h : ¬((y % 4 = 0 ∧ y % 100 ≠ 0) ∨ y % 400 = 0) := by
      have hb := hL
      rw [isLeap] at hb
      simpa using hb
    rw [if_neg (by simp), daysBeforeYear, daysBeforeYear]
    clear hL
    omega

/-- Stepping a valid date forward advances the absolute day by one. -/
theorem toAbs_nextDate (dt : Date) (h : ValidDate dt) :
    toAbs (nextDate dt) = toAbs dt + 1 := by
  obtain ⟨hm1, hm2, hd1, hd2⟩ := h
  rcases dt with ⟨y, m, d⟩
  simp only at hm1 hm2 hd1 hd2
  rw [nextDate]
  by_cases h1 : d < daysInMonth y m
  · rw [if_pos h1]
    simp only [toAbs]
    omega
  · rw [if_neg h1]
    by_cases h2 : m < 12
    · rw [if_pos h2]
      obtain ⟨k, rfl⟩ : ∃ k, m = k + 1 := ⟨m - 1, by omega⟩
      simp only [toAbs, daysBeforeMonth_succ]
      have := daysInMonth_pos y (k + 1)
      omega
    · rw [if_neg h2]
      have hm : m = 12 := by omega
      subst hm
      have hd : d = 31 := by
        rw [daysInMonth_twelve] at hd2 h1
        omega
      subst hd
      simp only [toAbs, daysBeforeYear_succ, daysBeforeMonth_twelve,
        daysBeforeMonth_one, daysInMonth_twelve]
      cases isLeap y <;> simp

/-- Stepping a valid date forward stays valid. -/
theorem valid_nextDate (dt : Date) (h : ValidDate dt) :
    ValidDate (nextDate dt) := by
  obtain ⟨hm1, hm2, hd1, hd2⟩ := h
  rcases dt with ⟨y, m, d⟩
  simp only at hm1 hm2 hd1 hd2
  rw [nextDate]
  by_cases h1 : d < daysInMonth y m
  · rw [if_pos h1]
    exact ⟨hm1, hm2, by show 1 ≤ d + 1; omega,
      by show d + 1 ≤ daysInMonth y m; omega⟩
  · rw [if_neg h1]
    by_cases h2 : m < 12
    · rw [if_pos h2]
      exact ⟨by show 1 ≤ m + 1; omega, by show m + 1 ≤ 12; omega,
        by show (1 : Nat) ≤ 1; omega,
        by show 1 ≤ daysInMonth y (m + 1); exact daysInMonth_pos y (m + 1)⟩
    · rw [if_neg h2]
      exact ⟨by show (1 : Nat) ≤ 1; omega, by show (1 : Nat) ≤ 12; omega,
        by show (1 : Nat) ≤ 1; omega,
        by show 1 ≤ daysInMonth (y + 1) 1; exact daysInMonth_pos (y + 1) 1⟩

/-- Stepping a valid, non-initial date backward stays valid and lowers
the absolute day by one. -/
theorem prevDate_step (dt : Date) (h : ValidDate dt)
    (hnz : 1 ≤ toAbs dt) :
    ValidDate (prevDate dt) ∧ toAbs (prevDate dt) + 1 = toAbs dt := by
  obtain ⟨hm1, hm2, hd1, hd2⟩ := h
  rcases dt with ⟨y, m, d⟩
  simp only at hm1 hm2 hd1 hd2
  rw [prevDate]
  by_cases h1 : 1 < d
  · rw [if_pos h1]
    refine ⟨⟨hm1, hm2, by show 1 ≤ d - 1; omega,
      by show d - 1 ≤ daysInMonth y m; omega⟩, ?_⟩
    show daysBeforeYear y + daysBeforeMonth y m + (d - 1 - 1) + 1 =
      daysBeforeYear y + daysBeforeMonth y m + (d - 1)
    omega
  · rw [if_neg h1]
    have hd : d = 1 := by omega
    subst hd
    by_cases h2 : 1 < m
    · rw [if_pos h2]
      obtain ⟨k, rfl⟩ : ∃ k, m = k + 2 := ⟨m - 2, by omega⟩
      simp only [show k + 2 - 1 = k + 1 from rfl]
      have hpos := daysInMonth_pos y (k + 1)
      refine ⟨⟨by show 1 ≤ k + 1; omega, by show k + 1 ≤ 12; omega,
        by show 1 ≤ daysInMonth y (k + 1); omega,
        by show daysInMonth y (k + 1) ≤ daysInMonth y (k + 1); omega⟩, ?_⟩
      show daysBeforeYear y + daysBeforeMonth y (k + 1) +
          (daysInMonth y (k + 1) - 1) + 1 =
        daysBeforeYear y + daysBeforeMonth y (k + 2) + (1 - 1)
      rw [daysBeforeMonth_succ]
      omega
    · rw [if_neg h2]
      have hm : m = 1 := by omega
      subst hm
      obtain ⟨z, rfl⟩ : ∃ z, y = z + 1 := by
        refine ⟨y - 1, ?_⟩
        by_contra hy
        have hy0 : y = 0 := by omega
        subst hy0
        simp [toAbs, daysBeforeYear, daysBeforeMonth] at hnz
      simp only [show z + 1 - 1 = z from rfl]
      refine ⟨⟨by show (1 : Nat) ≤ 12; omega, by show (12 : Nat) ≤ 12; omega,
        by show (1 : Nat) ≤ 31; omega,
        by show (31 : Nat) ≤ daysInMonth z 12; rw [daysInMonth_twelve]⟩, ?_⟩
      show daysBeforeYear z + daysBeforeMonth z 12 + (31 - 1) + 1 =
        daysBeforeYear (z + 1) + daysBeforeMonth (z + 1) 1 + (1 - 1)
      rw [daysBeforeYear_succ, daysBeforeMonth_twelve, daysBeforeMonth_one]
      cases isLeap z <;> simp

/-- Stepping backward then forward returns to the same valid date. -/
theorem nextDate_prevDate (dt : Date) (h : ValidDate dt)
    (hnz : 1 ≤ toAbs dt) :
    nextDate (prevDate dt) = dt := by
  obtain ⟨hm1, hm2, hd1, hd2⟩ := h
  rcases dt with ⟨y, m, d⟩
  simp only at hm1 hm2 hd1 hd2
  rw [prevDate]
  by_cases h1 : 1 < d
  · rw [if_pos h1, nextDate]
    simp only
    rw [if_pos (by show d - 1 < daysInMonth y m; omega)]
    rw [show d - 1 + 1 = d by omega]
  · rw [if_neg h1]
    have hd : d = 1 := by omega
    subst hd
    by_cases h2 : 1 < m
    · rw [if_pos h2, nextDate]
      simp only
      rw [if_neg (by omega), if_pos (by show m - 1 < 12; omega)]
      rw [show m - 1 + 1 = m by omega]
    · rw [if_neg h2]
      have hm : m = 1 := by omega
      subst hm
      obtain ⟨z, rfl⟩ : ∃ z, y = z + 1 := by
        refine ⟨y - 1, ?_⟩
        by_contra hy
        have hy0 : y = 0 := by omega
        subst hy0
        simp [toAbs, daysBeforeYear, daysBeforeMonth] at hnz
      simp only [show z + 1 - 1 = z from rfl]
      rw [nextDate]
      simp only
      rw [if_neg (by rw [daysInMonth_twelve]; omega), if_neg (by omega)]

/-- Forward iteration from a valid date: validity and absolute day. -/
theorem nextDate_iter (k : Nat) (dt : Date) (h : ValidDate dt) :
    ValidDate (nextDate^[k] dt) ∧ toAbs (nextDate^[k] dt) = toAbs dt + k := by
  induction k with
  | zero => exact ⟨h, rfl⟩
  | succ n ih =>
    rw [Function.iterate_succ_apply']
    exact ⟨valid_nextDate _ ih.1,
      by rw [toAbs_nextDate _ ih.1, ih.2]; omega⟩

/-- Backward iteration from a valid date: validity and absolute day. -/
theorem prevDate_iter (k : Nat) (dt : Date) (h : ValidDate dt)
    (hk : k ≤ toAbs dt) :
    ValidDate (prevDate^[k] dt) ∧ toAbs (prevDate^[k] dt) + k = toAbs dt := by
  induction k with
  | zero => exact ⟨h, rfl⟩
  | succ n ih =>
    have ihn := ih (by omega)
    have hnz : 1 ≤ toAbs (prevDate^[n] dt) := by omega
    have hstep := prevDate_step _ ihn.1 hnz
    rw [Function.iterate_succ_apply']
    exact ⟨hstep.1, by omega⟩

/-- Backward then forward iteration returns to the same valid date. -/
theorem nextDate_prevDate_iter (k : Nat) (dt : Date) (h : ValidDate dt)
    (hk : k ≤ toAbs dt) :
    nextDate^[k] (prevDate^[k] dt) = dt := by
  induction k with
  | zero => rfl
  | succ n ih =>
    have ihn := prevDate_iter n dt h (by omega)
    have hnz : 1 ≤ toAbs (prevDate^[n] dt) := by omega
    rw [Function.iterate_succ_apply' prevDate,
      Function.iterate_succ_apply nextDate]
    rw [nextDate_prevDate _ ihn.1 hnz]
    exact ih (by omega)

/-- Forward iteration inside a single month just advances the day. -/
theorem nextDate_iter_month (y m : Nat) :
    ∀ (j d : Nat), 1 ≤ d → d + j ≤ daysInMonth y m →
      nextDate^[j] ⟨y, m, d⟩ = ⟨y, m, d + j⟩ := by
  intro j
  induction j with
  | zero => intro d _ _; rfl
  | succ n ih =>
    intro d hd1 hdn
    rw [Function.iterate_succ_apply]
    have hstep : nextDate ⟨y, m, d⟩ = ⟨y, m, d + 1⟩ := by
      rw [nextDate]
      simp only
      rw [if_pos (by omega)]
    rw [hstep, ih (d + 1) (by omega) (by omega),
      show d + 1 + n = d + (n + 1) from by omega]

/-- The first of any month in a positive year is at least a week in. -/
theorem toAbs_first_ge (y m : Nat) (hy : 1 ≤ y) : 7 ≤ toAbs ⟨y, m, 1⟩ := by
  have h365 : 365 ≤ daysBeforeYear y := by
    rw [daysBeforeYear]
    omega
  show 7 ≤ daysBeforeYear y + daysBeforeMonth y m + (1 - 1)
  omega

/-- Splitting an arithmetic range at an interior point. -/
theorem range'_split (s a b : Nat) :
    List.range' s (a + b) = List.range' s a ++ List.range' (s + a) b := by
  have h := List.range'_append s a b 1
  simp only [one_mul] at h
  rw [Nat.add_comm a b, ← h]

/-- C8: for every valid (year, month) the calendar grid's length is a
multiple of 7, and its `isCurrentMonth = true` cells are exactly the
dates of that month, each once and in order (adjacent-month filler cells
are all flagged false); for February 2024 exactly 29 cells are flagged
`isCurrentMonth = true`. -/
theorem buildCalendar_correct (y m : Nat) (hy : 1 ≤ y) (hm1 : 1 ≤ m)
    (hm2 : m ≤ 12) :
    (buildCalendar y m).length % 7 = 0 ∧
    ((buildCalendar y m).filter (fun c => c.2)).map Prod.fst =
      (List.range (daysInMonth y m)).map (fun k => (⟨y, m, k + 1⟩ : Date)) ∧
    ((buildCalendar 2024 2).filter (fun c => c.2)).length = 29 := by
  have hvfirst : ValidDate ⟨y, m, 1⟩ :=
    ⟨hm1, hm2, le_refl 1, daysInMonth_pos y m⟩
  have hE1 : 1 ≤ daysInMonth y m := daysInMonth_pos y m
  have hvlast : ValidDate ⟨y, m, daysInMonth y m⟩ :=
    ⟨hm1, hm2, hE1, le_refl _⟩
  have hs7 : 7 ≤ toAbs ⟨y, m, 1⟩ := toAbs_first_ge y m hy
  have habs2 : toAbs ⟨y, m, daysInMonth y m⟩ =
      toAbs ⟨y, m, 1⟩ + (daysInMonth y m - 1) := by
    show daysBeforeYear y + daysBeforeMonth y m + (daysInMonth y m - 1) =
      daysBeforeYear y + daysBeforeMonth y m + (1 - 1) + (daysInMonth y m - 1)
    omega
  have hds6 : dowAbs (toAbs ⟨y, m, 1⟩) ≤ 6 := by
    rw [dowAbs]
    omega
  have hde6 : dowAbs (toAbs ⟨y, m, daysInMonth y m⟩) ≤ 6 := by
    rw [dowAbs]
    omega
  refine ⟨?_, ?_, by decide⟩
  · have hlen : (buildCalendar y m).length = calendarLength y m := by
      rw [buildCalendar, List.length_map, List.length_range]
    rw [hlen, calendarLength, habs2, dowAbs, dowAbs]
    omega
  · have hds_le : dowAbs (toAbs ⟨y, m, 1⟩) ≤ toAbs ⟨y, m, 1⟩ := by omega
    have hprev := prevDate_iter (dowAbs (toAbs ⟨y, m, 1⟩)) ⟨y, m, 1⟩ hvfirst
      hds_le
    have hVS : ValidDate (calendarStart y m) := by
      rw [calendarStart]
      exact hprev.1
    have habsS : toAbs (calendarStart y m) =
        toAbs ⟨y, m, 1⟩ - dowAbs (toAbs ⟨y, m, 1⟩) := by
      rw [calendarStart]
      have := hprev.2
      omega
    have hround : nextDate^[dowAbs (toAbs ⟨y, m, 1⟩)] (calendarStart y m) =
        ⟨y, m, 1⟩ := by
      rw [calendarStart]
      exact nextDate_prevDate_iter (dowAbs (toAbs ⟨y, m, 1⟩)) ⟨y, m, 1⟩
        hvfirst hds_le
    have hcell : ∀ i, ValidDate (nextDate^[i] (calendarStart y m)) ∧
        toAbs (nextDate^[i] (calendarStart y m)) =
          (toAbs ⟨y, m, 1⟩ - dowAbs (toAbs ⟨y, m, 1⟩)) + i := by
      intro i
      have h := nextDate_iter i (calendarStart y m) hVS
      exact ⟨h.1, by rw [h.2, habsS]⟩
    have hmid : ∀ j, j < daysInMonth y m →
        nextDate^[dowAbs (toAbs ⟨y, m, 1⟩) + j] (calendarStart y m) =
          ⟨y, m, 1 + j⟩ := by
      intro j hj
      rw [show dowAbs (toAbs ⟨y, m, 1⟩) + j =
        j + dowAbs (toAbs ⟨y, m, 1⟩) from by omega]
      rw [Function.iterate_add_apply, hround]
      exact nextDate_iter_month y m j 1 (le_refl 1) (by omega)
    have hsdef : toAbs ⟨y, m, 1⟩ =
        daysBeforeYear y + daysBeforeMonth y m := by
      show daysBeforeYear y + daysBeforeMonth y m + (1 - 1) = _
      omega
    have hflagT : ∀ j, j < daysInMonth y m →
        ((nextDate^[dowAbs (toAbs ⟨y, m, 1⟩) + j] (calendarStart y m)).y == y &&
          ((nextDate^[dowAbs (toAbs ⟨y, m, 1⟩) + j] (calendarStart y m)).m == m))
          = true := by
      intro j hj
      rw [hmid j hj]
      simp
    have hflagF : ∀ i, (i < dowAbs (toAbs ⟨y, m, 1⟩) ∨
        dowAbs (toAbs ⟨y, m, 1⟩) + daysInMonth y m ≤ i) →
        ((nextDate^[i] (calendarStart y m)).y == y &&
          ((nextDate^[i] (calendarStart y m)).m == m)) = false := by
      intro i hi
      by_cases hfl : ((nextDate^[i] (calendarStart y m)).y == y &&
          ((nextDate^[i] (calendarStart y m)).m == m)) = true
      · exfalso
        rw [Bool.and_eq_true, beq_iff_eq, beq_iff_eq] at hfl
        obtain ⟨hyy, hmm⟩ := hfl
        have hval := (hcell i).1
        have habs := (hcell i).2
        have hd1 : 1 ≤ (nextDate^[i] (calendarStart y m)).d := hval.2.2.1
        have hd2 : (nextDate^[i] (calendarStart y m)).d ≤ daysInMonth y m := by
          have h := hval.2.2.2
          rw [hyy, hmm] at h
          exact h
        have htoabs : toAbs (nextDate^[i] (calendarStart y m)) =
            daysBeforeYear y + daysBeforeMonth y m +
              ((nextDate^[i] (calendarStart y m)).d - 1) := by
          rw [toAbs, hyy, hmm]
        omega
      · simpa using hfl
    have hCLge : dowAbs (toAbs ⟨y, m, 1⟩) + daysInMonth y m ≤
        calendarLength y m := by
      rw [calendarLength, habs2, dowAbs, dowAbs]
      omega
    rw [buildCalendar]
    change (((List.range (calendarLength y m)).map (fun i =>
      (nextDate^[i] (calendarStart y m),
        (nextDate^[i] (calendarStart y m)).y == y &&
          ((nextDate^[i] (calendarStart y m)).m == m)))).filter
      (fun c => c.2)).map Prod.fst = _
    rw [List.range_eq_range']
    rw [show calendarLength y m = dowAbs (toAbs ⟨y, m, 1⟩) +
      (daysInMonth y m + (calendarLength y m -
        (dowAbs (toAbs ⟨y, m, 1⟩) + daysInMonth y m))) from by omega]
    rw [range'_split, range'_split]
    simp only [Nat.zero_add]
    rw [List.map_append, List.map_append, List.filter_append,
      List.filter_append]
    have hlow : ((List.range' 0 (dowAbs (toAbs ⟨y, m, 1⟩))).map (fun i =>
        (nextDate^[i] (calendarStart y m),
          (nextDate^[i] (calendarStart y m)).y == y &&
            ((nextDate^[i] (calendarStart y m)).m == m)))).filter
        (fun c => c.2) = [] := by
      rw [List.filter_eq_nil_iff]
      intro c hc
      obtain ⟨i, hi, rfl⟩ := List.mem_map.mp hc
      have hi' := List.mem_range'_1.mp hi
      simp only []
      rw [hflagF i (Or.inl (by omega))]
      simp
    have hhigh : ((List.range' (dowAbs (toAbs ⟨y, m, 1⟩) + daysInMonth y m)
        (calendarLength y m - (dowAbs (toAbs ⟨y, m, 1⟩) +
          daysInMonth y m))).map (fun i =>
        (nextDate^[i] (calendarStart y m),
          (nextDate^[i] (calendarStart y m)).y == y &&
            ((nextDate^[i] (calendarStart y m)).m == m)))).filter
        (fun c => c.2) = [] := by
      rw [List.filter_eq_nil_iff]
      intro c hc
      obtain ⟨i, hi, rfl⟩ := List.mem_map.mp hc
      have hi' := List.mem_range'_1.mp hi
      simp only []
      rw [hflagF i (Or.inr (by omega))]
      simp
    have hmidf : ((List.range' (dowAbs (toAbs ⟨y, m, 1⟩))
        (daysInMonth y m)).map (fun i =>
        (nextDate^[i] (calendarStart y m),
          (nextDate^[i] (calendarStart y m)).y == y &&
            ((nextDate^[i] (calendarStart y m)).m == m)))).filter
        (fun c => c.2) = (List.range' (dowAbs (toAbs ⟨y, m, 1⟩))
        (daysInMonth y m)).map (fun i =>
        (nextDate^[i] (calendarStart y m),
          (nextDate^[i] (calendarStart y m)).y == y &&
            ((nextDate^[i] (calendarStart y m)).m == m))) := by
      rw [List.filter_eq_self]
      intro c hc
      obtain ⟨i, hi, rfl⟩ := List.mem_map.mp hc
      have hi' := List.mem_range'_1.mp hi
      simp only []
      rw [show i = dowAbs (toAbs ⟨y, m, 1⟩) +
        (i - dowAbs (toAbs ⟨y, m, 1⟩)) from by omega]
      rw [hflagT (i - dowAbs (toAbs ⟨y, m, 1⟩)) (by omega)]
    rw [hlow, hhigh, hmidf]
    rw [List.nil_append, List.append_nil]
    rw [List.map_map]
    rw [List.range'_eq_map_range]
    rw [List.map_map]
    refine List.map_congr_left ?_
    intro k hk
    have hk' : k < daysInMonth y m := List.mem_range.mp hk
    show Prod.fst (nextDate^[dowAbs (toAbs ⟨y, m, 1⟩) + k] (calendarStart y m),
      (nextDate^[dowAbs (toAbs ⟨y, m, 1⟩) + k] (calendarStart y m)).y == y &&
        ((nextDate^[dowAbs (toAbs ⟨y, m, 1⟩) + k] (calendarStart y m)).m == m))
      = (⟨y, m, k + 1⟩ : Date)
    rw [hmid k hk']
    rw [show 1 + k = k + 1 from by omega]

/-- C8 witness: the calendar theorem applied to February 2024. -/
theorem buildCalendar_correct_witness :
    (buildCalendar 2024 2).length % 7 = 0 ∧
    ((buildCalendar 2024 2).filter (fun c => c.2)).map Prod.fst =
      (List.range (daysInMonth 2024 2)).map (fun k => (⟨2024, 2, k + 1⟩ : Date)) :=
  ⟨(buildCalendar_correct 2024 2 (by decide) (by decide) (by decide)).1,
    (buildCalendar_correct 2024 2 (by decide) (by decide) (by decide)).2.1⟩
